import Mathlib

/-!
Verification development for the bitboard chess engine core
(`src/utils/board.cpp`, `src/search/search.cpp`).

The C++ sources are shallowly embedded: `uint64_t` bitboards become `Nat`
values kept below `2 ^ 64` (every bit operation masks or only touches bits
below 64), `int` squares become `Int` with the same range checks the C++
performs, and the engine's mutable globals (transposition table, killer
moves, history scores, the candidate filter's random generator, node
counter) become an explicit state record threaded through the search.

Modelling choices for behaviour the C++ leaves undefined or external:
* an out-of-range shift (`1ULL << sq` with `sq` outside `[0,64)`) is
  undefined behaviour in C++; the embedded bit operations guard the range
  and leave the bitboard unchanged.  All inputs used in the theorems below
  keep every square in range, so the guard is never exercised there.
* the evaluation oracle (`Evaluation::evaluate` over a FEN string) is an
  external collaborator per the specification; it is abstracted as a
  function `eval : Board → Int` carried in the context.
* the candidate filter's `std::mt19937` / `uniform_int_distribution`
  draws are library internals; they are abstracted as a stream
  `draws : Nat → Nat` of values in `[0,100]`, with the engine state
  carrying the position in the stream (the C++ generator is process-wide
  and keeps advancing across searches).
* the wall-clock stop condition (`should_stop`) is abstracted as a
  context flag; every theorem below is stated for an uninterrupted search
  (`stop = false`), matching the claims' "unlimited time" readings.
* the uninitialised `tt_move` local that C++ reads when the table probe
  misses is modelled as 0 (no generated move encodes to 0).
* `std::stoi` throwing on a malformed counter field is modelled by
  `set_from_fen` returning `none`.
-/

namespace HumanChess

set_option maxRecDepth 8000

/-! ## Bit primitives (`namespace Bitboards` in `board.hpp`) -/

/-- `2 ^ 64`, the modulus of the C++ `uint64_t` arithmetic. -/
def U64 : Nat := 2 ^ 64

/-- `Bitboards::test`: `bb & (1ULL << square)`, guarded against the
out-of-range shift that would be undefined behaviour in C++. -/
def bbTest (bb : Nat) (sq : Int) : Bool :=
  if 0 ≤ sq ∧ sq < 64 then bb.testBit sq.toNat else false

/-- `Bitboards::set`: `bb |= (1ULL << square)` with the same range guard. -/
def bset (bb : Nat) (sq : Int) : Nat :=
  if 0 ≤ sq ∧ sq < 64 then bb ||| (1 <<< sq.toNat) else bb

/-- `bb &= ~(1ULL << square)` with the same range guard (64-bit complement
written as xor against the all-ones mask). -/
def bclear (bb : Nat) (sq : Int) : Nat :=
  if 0 ≤ sq ∧ sq < 64 then bb &&& ((U64 - 1) ^^^ (1 <<< sq.toNat)) else bb

/-- 64-bit complement `~bb` of a bitboard. -/
def bcompl (bb : Nat) : Nat := (U64 - 1) ^^^ bb

/-- The ascending list of set-bit indices of a 64-bit bitboard: exactly the
squares visited by the C++ `while (bb) pop_lsb(bb)` loops. -/
def bitsOf (bb : Nat) : List Nat :=
  (List.range 64).filter (fun i => bb.testBit i)

/-- Encode a move as the C++ does: `(from << 6) | to`. -/
def mkMove (f t : Nat) : Nat := (f <<< 6) ||| t

/-- Piece constants from `board.hpp`. -/
def NO_PIECE : Nat := 0

def PAWN : Nat := 1

def KNIGHT : Nat := 2

def BISHOP : Nat := 3

def ROOK : Nat := 4

def QUEEN : Nat := 5

def KING : Nat := 6

/-! ## Board state (`struct Board` in `board.hpp`)

`pieces` and `colors` are the C++ arrays `uint64_t pieces[7]` and
`uint64_t colors[2]`, embedded as functions from the array index. -/

structure Board where
  pieces : Nat → Nat
  colors : Nat → Nat
  side_to_move : Int
  castling : List (List Bool)
  en_passant_square : Int
  fullmove_number : Int
  halfmove_clock : Int
  hash : Nat

/-- Point update of an index-to-bitboard function (an array store). -/
def upd (f : Nat → Nat) (i : Nat) (v : Nat) : Nat → Nat :=
  fun j => if j = i then v else f j

/-- The freshly constructed `Board` (its constructor calls `reset()`). -/
def resetBoard : Board where
  pieces := fun _ => 0
  colors := fun _ => 0
  side_to_move := 0
  castling := [[true, true], [true, true]]
  en_passant_square := -1
  fullmove_number := 1
  halfmove_clock := 0
  hash := 0

instance : Inhabited Board := ⟨resetBoard⟩

/-- `Board::clear`: zero the bitboards, leave the remaining fields alone. -/
def clearB (b : Board) : Board :=
  { b with pieces := fun _ => 0, colors := fun _ => 0 }

/-- `Board::add_piece`.  The C++ writes `colors[color]` without a range
check; a color outside `{0,1}` (possible only through `color_at` returning
`-1` on a malformed board) would be undefined behaviour and is modelled as
leaving the color boards unchanged. -/
def add_piece (b : Board) (square : Int) (piece_type : Nat) (color : Int) : Board :=
  if piece_type = NO_PIECE then b
  else
    let b := { b with pieces := upd b.pieces piece_type (bset (b.pieces piece_type) square) }
    if 0 ≤ color ∧ color < 2 then
      { b with colors := upd b.colors color.toNat (bset (b.colors color.toNat) square) }
    else b

/-- `Board::remove_piece`: clear the square in every piece board that has
it set, then in both color boards. -/
def remove_piece (b : Board) (square : Int) : Board :=
  let ps := (List.range' 1 6).foldl
    (fun ps pt => if bbTest (ps pt) square then upd ps pt (bclear (ps pt) square) else ps)
    b.pieces
  { b with pieces := ps,
           colors := upd (upd b.colors 0 (bclear (b.colors 0) square)) 1 (bclear (b.colors 1) square) }

/-- `Board::piece_at`: first piece board (in order pawn..king) with the
square set; `NO_PIECE` out of range or when none matches. -/
def piece_at (b : Board) (square : Int) : Nat :=
  if square < 0 ∨ 64 ≤ square then NO_PIECE
  else ((List.range' 1 6).find? (fun pt => (b.pieces pt).testBit square.toNat)).getD NO_PIECE

/-- `Board::color_at`. -/
def color_at (b : Board) (square : Int) : Int :=
  if square < 0 ∨ 64 ≤ square then -1
  else if (b.colors 0).testBit square.toNat then 0
  else if (b.colors 1).testBit square.toNat then 1
  else -1

/-- `Board::is_empty`. -/
def is_empty (b : Board) (square : Int) : Bool :=
  piece_at b square = NO_PIECE

/-- `Board::pieces_of_color`, with the index guard for a side value outside
`{0,1}` (the C++ would index out of bounds). -/
def pieces_of_color (b : Board) (color : Int) : Nat :=
  if 0 ≤ color ∧ color < 2 then b.colors color.toNat else 0

/-- `Board::all_pieces`. -/
def all_pieces (b : Board) : Nat := b.colors 0 ||| b.colors 1

/-- `Board::compute_hash`, as the value it stores into `hash`: an FNV-style
fold over the occupied squares (piece type only) xor'd with the side to
move.  Castling rights and the en-passant square are not read. -/
def compute_hash (b : Board) : Nat :=
  let seed := (List.range 64).foldl
    (fun (s : Nat) (sq : Nat) =>
      let p := piece_at b (sq : Int)
      if p ≠ NO_PIECE then ((s ^^^ (sq + p * 7)) * 1099511628211) % U64 else s)
    1469598103934665603
  seed ^^^ b.side_to_move.toNat

/-! ## Attack tables and attack generation (`board.cpp`) -/

/-- The 64-entry knight attack table, transcribed from `knight_attacks`. -/
def knightTable : List Nat := [
  0x0000000000020400, 0x0000000000050800, 0x00000000000A1100, 0x0000000000142200,
  0x0000000000284400, 0x0000000000508800, 0x0000000000A01000, 0x0000000000400200,
  0x0000000002040004, 0x0000000005080008, 0x000000000A110011, 0x0000000014220022,
  0x0000000028440044, 0x0000000050880088, 0x00000000A0100010, 0x0000000040002000,
  0x0000000204000402, 0x0000000508000805, 0x0000000A1100110A, 0x0000001422002214,
  0x0000002844004428, 0x0000005088008850, 0x000000A0100010A0, 0x0000004000020040,
  0x0000020400040200, 0x0000050800080500, 0x00000A1100110A00, 0x0000142200221400,
  0x0000284400442800, 0x0000508800885000, 0x0000A0100010A000, 0x0000400002004000,
  0x0002040004020000, 0x0005080008050000, 0x000A1100110A0000, 0x0014220022140000,
  0x0028440044280000, 0x0050880088500000, 0x00A0100010A00000, 0x0040000200400000,
  0x0204000402000000, 0x0508000805000000, 0x0A1100110A000000, 0x1422002214000000,
  0x2844004428000000, 0x5088008850000000, 0xA0100010A0000000, 0x4000020040000000,
  0x0400040200000000, 0x0800080500000000, 0x1100110A00000000, 0x2200221400000000,
  0x4400442800000000, 0x8800885000000000, 0x100010A000000000, 0x0000020040000000,
  0x0004000200000000, 0x0008000500000000, 0x0011000A00000000, 0x0022001400000000,
  0x0044002800000000, 0x0088005000000000, 0x001000A000000000, 0x0000004000000000]

/-- The 64-entry king attack table, transcribed from `king_attacks`. -/
def kingTable : List Nat := [
  0x0000000000000302, 0x0000000000000507, 0x0000000000000A0E, 0x000000000000141C,
  0x0000000000002838, 0x0000000000005070, 0x000000000000A0E0, 0x000000000000403C,
  0x0000000000030203, 0x0000000000070507, 0x00000000000E0E0E, 0x00000000001C1C1C,
  0x0000000000383838, 0x0000000000707070, 0x0000000000E0E0E0, 0x0000000000C0C0C0,
  0x0000000003020300, 0x0000000007050700, 0x000000000E0E0E00, 0x000000001C1C1C00,
  0x0000000038383800, 0x0000000070707000, 0x00000000E0E0E000, 0x00000000C0C0C000,
  0x0000000302030000, 0x0000000705070000, 0x0000000E0E0E0000, 0x0000001C1C1C0000,
  0x0000003838380000, 0x0000007070700000, 0x000000E0E0E00000, 0x000000C0C0C00000,
  0x0000030203000000, 0x0000070507000000, 0x00000E0E0E000000, 0x00001C1C1C000000,
  0x0000383838000000, 0x0000707070000000, 0x0000E0E0E0000000, 0x0000C0C0C0000000,
  0x0003020300000000, 0x0007050700000000, 0x000E0E0E00000000, 0x001C1C1C00000000,
  0x0038383800000000, 0x0070707000000000, 0x00E0E0E000000000, 0x00C0C0C000000000,
  0x0302030000000000, 0x0705070000000000, 0x0E0E0E0000000000, 0x1C1C1C0000000000,
  0x3838380000000000, 0x7070700000000000, 0xE0E0E00000000000, 0xC0C0C00000000000,
  0x0203000000000000, 0x0507000000000000, 0x0E0E000000000000, 0x1C1C000000000000,
  0x3838000000000000, 0x7070000000000000, 0xE0E0000000000000, 0xC0C0000000000000]

/-- `Bitboards::knight_attacks` (table lookup). -/
def knight_attacks (square : Nat) : Nat := knightTable.getD square 0

/-- `Bitboards::king_attacks` (table lookup). -/
def king_attacks (square : Nat) : Nat := kingTable.getD square 0

/-- One sliding-piece ray of `bishop_attacks`/`rook_attacks`: step `k`
times `(df, dr)` from `square`, recording each square and stopping after
the first blocker or at the board edge.  A ray has at most 7 squares, so
fuel 8 reproduces the C++ `while` loop exactly. -/
def rayGo (blockers : Nat) (square : Nat) (df dr : Int) : Nat → Int → Nat → Nat
  | 0, _, acc => acc
  | fuel + 1, k, acc =>
      let file : Int := (square % 8 : Nat)
      let rank : Int := (square / 8 : Nat)
      if 0 ≤ file + df * k ∧ file + df * k < 8 ∧ 0 ≤ rank + dr * k ∧ rank + dr * k < 8 then
        let sq : Int := (square : Int) + df * k + dr * 8 * k
        let acc := bset acc sq
        if bbTest blockers sq then acc
        else rayGo blockers square df dr fuel (k + 1) acc
      else acc

/-- A full ray from step 1. -/
def ray (blockers : Nat) (square : Nat) (df dr : Int) : Nat :=
  rayGo blockers square df dr 8 1 0

/-- `Bitboards::bishop_attacks`: the four diagonal rays, accumulated in the
source's order. -/
def bishop_attacks (square : Nat) (blockers : Nat) : Nat :=
  ray blockers square 1 1 ||| ray blockers square (-1) 1 |||
  ray blockers square 1 (-1) ||| ray blockers square (-1) (-1)

/-- `Bitboards::rook_attacks`: the four orthogonal rays, accumulated in the
source's order. -/
def rook_attacks (square : Nat) (blockers : Nat) : Nat :=
  ray blockers square 0 1 ||| ray blockers square 0 (-1) |||
  ray blockers square 1 0 ||| ray blockers square (-1) 0

/-- `Bitboards::queen_attacks`. -/
def queen_attacks (square : Nat) (blockers : Nat) : Nat :=
  bishop_attacks square blockers ||| rook_attacks square blockers

/-- `Bitboards::pawn_attacks` (note: unlike the pawn-capture generation in
`generate_moves`, this one does check the file edges). -/
def pawn_attacks (square : Nat) (color : Int) : Nat :=
  let file : Int := (square % 8 : Nat)
  let rank : Int := (square / 8 : Nat)
  let forward : Int := if color = 0 then 1 else -1
  let a1 := if 0 < file ∧ 0 ≤ rank + forward ∧ rank + forward < 8 then
      bset 0 ((square : Int) + forward * 8 - 1) else 0
  let a2 := if file < 7 ∧ 0 ≤ rank + forward ∧ rank + forward < 8 then
      bset 0 ((square : Int) + forward * 8 + 1) else 0
  a1 ||| a2

/-- `Bitboards::is_square_attacked`. -/
def is_square_attacked (b : Board) (square : Nat) (color : Int) : Bool :=
  let cbb := pieces_of_color b color
  let enemy_pawns := b.pieces PAWN &&& cbb
  let enemy_knights := b.pieces KNIGHT &&& cbb
  let enemy_bishops := b.pieces BISHOP &&& cbb
  let enemy_rooks := b.pieces ROOK &&& cbb
  let enemy_queens := b.pieces QUEEN &&& cbb
  let enemy_king := b.pieces KING &&& cbb
  if pawn_attacks square (1 - color) &&& enemy_pawns ≠ 0 then true
  else if knight_attacks square &&& enemy_knights ≠ 0 then true
  else if king_attacks square &&& enemy_king ≠ 0 then true
  else
    let allp := all_pieces b
    if bishop_attacks square allp &&& (enemy_bishops ||| enemy_queens) ≠ 0 then true
    else if rook_attacks square allp &&& (enemy_rooks ||| enemy_queens) ≠ 0 then true
    else false

/-- `Board::is_in_check`: locate `color`'s king (first matching square) and
test whether the opposite color attacks it. -/
def is_in_check (b : Board) (color : Int) : Bool :=
  match (List.range 64).find? (fun (sq : Nat) =>
      piece_at b (sq : Int) = KING && color_at b (sq : Int) = color) with
  | none => false
  | some king_sq => is_square_attacked b king_sq (1 - color)

/-! ## Pseudo-legal move generation (`Board::generate_moves`) -/

/-- `PAWN_MOVE[2] = {8, -8}`; an index outside `{0,1}` would be an
out-of-bounds read in C++ (modelled as 0, which generates no move because
the pawn's own square is occupied). -/
def pawnMoveDir (stm : Int) : Int :=
  if stm = 0 then 8 else if stm = 1 then -8 else 0

/-- `PAWN_ATTACK[2][2] = {{7, 9}, {-7, -9}}` with the same out-of-bounds
convention. -/
def pawnAtkDir (stm : Int) (i : Nat) : Int :=
  if stm = 0 then (if i = 0 then 7 else 9)
  else if stm = 1 then (if i = 0 then -7 else -9)
  else 0

/-- The moves `generate_moves` emits for one pawn: single push, double push
from the starting rank, then the two capture offsets (which, as in the
source, do not check the file edge, only the square range). -/
def pawnGen (b : Board) (enemy : Nat) (sq : Nat) : List Nat :=
  let stm := b.side_to_move
  let forward : Int := (sq : Int) + pawnMoveDir stm
  let pushes :=
    if 0 ≤ forward ∧ forward < 64 ∧ is_empty b forward then
      let start_rank : Nat := if stm = 0 then 1 else 6
      let dbl :=
        if sq / 8 = start_rank then
          let double_forward : Int := forward + pawnMoveDir stm
          if is_empty b double_forward then [mkMove sq double_forward.toNat] else []
        else []
      mkMove sq forward.toNat :: dbl
    else []
  let caps := ([0, 1] : List Nat).flatMap (fun i =>
    let cap : Int := (sq : Int) + pawnAtkDir stm i
    if 0 ≤ cap ∧ cap < 64 then
      if bbTest enemy cap then [mkMove sq cap.toNat]
      else if cap = b.en_passant_square then [mkMove sq cap.toNat]
      else []
    else [])
  pushes ++ caps

/-- Moves of one fixed-pattern or sliding piece: every destination in the
attack set not occupied by the moving side. -/
def pieceGen (att : Nat) (our : Nat) (sq : Nat) : List Nat :=
  (bitsOf (att &&& bcompl our)).map (fun t => mkMove sq t)

/-- `Board::generate_moves`: pawns, knights, king, bishops, rooks, queens,
in the source's order, each piece enumerated in ascending square order as
by the `pop_lsb` loops. -/
def generate_moves (b : Board) : List Nat :=
  let our := pieces_of_color b b.side_to_move
  let enemy := pieces_of_color b (1 - b.side_to_move)
  let allp := all_pieces b
  (bitsOf (b.pieces PAWN &&& our)).flatMap (fun sq => pawnGen b enemy sq) ++
  (bitsOf (b.pieces KNIGHT &&& our)).flatMap (fun sq => pieceGen (knight_attacks sq) our sq) ++
  (bitsOf (b.pieces KING &&& our)).flatMap (fun sq => pieceGen (king_attacks sq) our sq) ++
  (bitsOf (b.pieces BISHOP &&& our)).flatMap (fun sq => pieceGen (bishop_attacks sq allp) our sq) ++
  (bitsOf (b.pieces ROOK &&& our)).flatMap (fun sq => pieceGen (rook_attacks sq allp) our sq) ++
  (bitsOf (b.pieces QUEEN &&& our)).flatMap (fun sq => pieceGen (queen_attacks sq allp) our sq)

/-! ## FEN parsing and serialization (`Board::set_from_fen`, `Board::get_fen`)

The `std::istringstream >>` extractions are modelled as whitespace
tokenization (a missing token extracts as the empty string, as in C++11).
`std::stoi` is modelled as `stoiL`, returning `none` where the C++ call
would throw (no digits, or a value outside the `int` range); consequently
`set_from_fen` returns `none` exactly where the C++ function would
propagate an exception instead of returning. -/

def isWS (c : Char) : Bool := c = ' ' || c = '\t' || c = '\n' || c = '\r'

def splitWSGo : List Char → List Char → List (List Char)
  | [], acc => if acc = [] then [] else [acc.reverse]
  | c :: rest, acc =>
      if isWS c then
        (if acc = [] then splitWSGo rest [] else acc.reverse :: splitWSGo rest [])
      else splitWSGo rest (c :: acc)

def splitWS (cs : List Char) : List (List Char) := splitWSGo cs []

/-- `std::islower` in the default locale, for ASCII input. -/
def isLowerC (c : Char) : Bool := 'a' ≤ c && c ≤ 'z'

/-- `std::tolower` in the default locale, for ASCII input. -/
def toLowerC (c : Char) : Char :=
  if 'A' ≤ c && c ≤ 'Z' then Char.ofNat (c.toNat + 32) else c

/-- The piece-letter switch in `set_from_fen` (unknown letters fall through
to `NO_PIECE`, which `add_piece` ignores). -/
def pieceOfChar (c : Char) : Nat :=
  let pc := toLowerC c
  if pc = 'p' then PAWN else if pc = 'n' then KNIGHT else if pc = 'b' then BISHOP
  else if pc = 'r' then ROOK else if pc = 'q' then QUEEN else if pc = 'k' then KING
  else NO_PIECE

/-- The board-field parsing loop of `set_from_fen`. -/
def parseBoardChars : List Char → Int → Board → Board
  | [], _, b => b
  | c :: rest, sq, b =>
      if c = '/' then parseBoardChars rest (sq - 16) b
      else if '1' ≤ c ∧ c ≤ '8' then
        parseBoardChars rest (sq + ((c.toNat : Int) - ('0'.toNat : Int))) b
      else
        parseBoardChars rest (sq + 1)
          (add_piece b sq (pieceOfChar c) (if isLowerC c then 1 else 0))

def isDigitC (c : Char) : Bool := '0' ≤ c && c ≤ '9'

def stoiDigits : List Char → Nat → Nat
  | [], acc => acc
  | c :: rest, acc =>
      if isDigitC c then stoiDigits rest (acc * 10 + (c.toNat - '0'.toNat)) else acc

/-- `std::stoi`: optional whitespace and sign, then at least one digit;
`none` where the C++ call throws. -/
def stoiL (cs : List Char) : Option Int :=
  let cs := cs.dropWhile isWS
  match cs with
  | '-' :: rest =>
      if isDigitC (rest.getD 0 (Char.ofNat 0)) then
        let v := stoiDigits rest 0
        if v ≤ 2 ^ 31 then some (-(v : Int)) else none
      else none
  | '+' :: rest =>
      if isDigitC (rest.getD 0 (Char.ofNat 0)) then
        let v := stoiDigits rest 0
        if v ≤ 2 ^ 31 - 1 then some (v : Int) else none
      else none
  | _ =>
      if isDigitC (cs.getD 0 (Char.ofNat 0)) then
        let v := stoiDigits cs 0
        if v ≤ 2 ^ 31 - 1 then some (v : Int) else none
      else none

def castGet (b : Board) (c s : Nat) : Bool := (b.castling.getD c []).getD s false

def castSet (b : Board) (c s : Nat) (v : Bool) : Board :=
  { b with castling := b.castling.set c ((b.castling.getD c []).set s v) }

/-- `Board::set_from_fen`, starting (as in every caller) from a freshly
constructed board.  The function performs no validation of any kind; its
only non-`true` outcome is the modelled `std::stoi` exception.  Reading
`ep_str[1]` of a too-short token, defined (`'\0'`) or undefined in C++
depending on the index, is modelled as the null character. -/
def setFromFenL (cs : List Char) : Option (Board × Bool) :=
  let toks := splitWS cs
  let board_str := toks.getD 0 []
  let side_str := toks.getD 1 []
  let castling_str := toks.getD 2 []
  let ep_str := toks.getD 3 []
  let b := parseBoardChars board_str 56 (clearB resetBoard)
  let b := { b with side_to_move := if side_str = ['w'] then 0 else 1 }
  let b := castSet b 0 0 (castling_str.contains 'K')
  let b := castSet b 0 1 (castling_str.contains 'Q')
  let b := castSet b 1 0 (castling_str.contains 'k')
  let b := castSet b 1 1 (castling_str.contains 'q')
  let b := { b with en_passant_square :=
    if ep_str = ['-'] then -1
    else
      let file : Int := ((ep_str.getD 0 (Char.ofNat 0)).toNat : Int) - ('a'.toNat : Int)
      let rank : Int := ((ep_str.getD 1 (Char.ofNat 0)).toNat : Int) - ('1'.toNat : Int)
      file + rank * 8 }
  let t5 := toks.getD 4 []
  let t6 := toks.getD 5 []
  match (if t5 = [] then some b.fullmove_number else stoiL t5) with
  | none => none
  | some fm =>
    match (if t6 = [] then some b.halfmove_clock else stoiL t6) with
    | none => none
    | some hm =>
      let b := { b with fullmove_number := fm, halfmove_clock := hm }
      some ({ b with hash := compute_hash b }, true)

def set_from_fen (s : String) : Option (Board × Bool) := setFromFenL s.toList

/-- Decimal digits of a natural number (fuel-bounded division loop). -/
def natDecGo : Nat → Nat → List Char
  | 0, _ => []
  | fuel + 1, n =>
      if n = 0 then [] else natDecGo fuel (n / 10) ++ [Char.ofNat ('0'.toNat + n % 10)]

def natDec (n : Nat) : List Char := if n = 0 then ['0'] else natDecGo 32 n

/-- `operator<<` on an `int`. -/
def intDec (i : Int) : List Char :=
  if i < 0 then '-' :: natDec i.natAbs else natDec i.toNat

/-- The piece character `get_fen` emits for a square: `" pnbrqk"[p]`
(lower case in the source for both colors), then `tolower` for black. -/
def pieceCharAt (b : Board) (sq : Int) : Char :=
  let ch := ([' ', 'p', 'n', 'b', 'r', 'q', 'k'].getD (piece_at b sq) ' ')
  if color_at b sq = 1 then toLowerC ch else ch

/-- One rank of the `get_fen` board field, with the running empty-square
counter. -/
def serCells (b : Board) (rank : Nat) : List Nat → Nat → List Char
  | [], e => if e > 0 then [Char.ofNat ('0'.toNat + e)] else []
  | f :: fs, e =>
      let sq : Int := (f : Int) + (rank : Int) * 8
      if piece_at b sq = NO_PIECE then serCells b rank fs (e + 1)
      else (if e > 0 then [Char.ofNat ('0'.toNat + e)] else []) ++
        pieceCharAt b sq :: serCells b rank fs 0

/-- The board field of `get_fen`: ranks 7 down to 0, `'/'` between. -/
def serBoard (b : Board) : List Char :=
  (List.range 8).reverse.flatMap (fun r =>
    serCells b r (List.range 8) 0 ++ if r > 0 then ['/'] else [])

/-- `Board::get_fen`.  Note the field order the source emits after the
en-passant field: fullmove number first, then halfmove clock (mirrored by
the reading order in `set_from_fen`).  A negative en-passant square other
than `-1` would make the C++ emit garbage characters; the model uses
`toNat` there (never exercised below). -/
def get_fenL (b : Board) : List Char :=
  let cast := (if castGet b 0 0 then ['K'] else []) ++ (if castGet b 0 1 then ['Q'] else []) ++
              (if castGet b 1 0 then ['k'] else []) ++ (if castGet b 1 1 then ['q'] else [])
  let castS := if cast = [] then ['-'] else cast
  let epS := if b.en_passant_square = -1 then ['-']
    else [Char.ofNat ('a'.toNat + b.en_passant_square.toNat % 8),
          Char.ofNat ('1'.toNat + b.en_passant_square.toNat / 8)]
  serBoard b ++ [' '] ++ [if b.side_to_move = 0 then 'w' else 'b'] ++ [' '] ++ castS ++
    [' '] ++ epS ++ [' '] ++ intDec b.fullmove_number ++ [' '] ++ intDec b.halfmove_clock

def get_fen (b : Board) : String := ⟨get_fenL b⟩

/-! ## Search module (`search.cpp`)

The file-static globals become the explicit state `GState`; the external
inputs (evaluation oracle, random draws, stop signal, the `max_depth`
limit set by `set_depth_limit`, default 20) become the context `Ctx`. -/

/-- `std::numeric_limits<int>::max()`. -/
def INTMAX : Int := 2147483647

/-- `TT_SIZE = 1 << 20`. -/
def TT_SIZE : Nat := 2 ^ 20

/-- One transposition-table slot (`struct TTEntry`). -/
structure TTEntry where
  hash : Nat
  depth : Int
  score : Int
  move : Nat
  flag : Nat
deriving DecidableEq

/-- The search module's mutable globals: transposition table, killer
moves, history scores, the position in the random-draw stream, and the
node counter. -/
structure GState where
  tt : Nat → TTEntry
  killers : Nat → Nat → Nat
  history : Nat → Nat → Int
  rngIdx : Nat
  nodes : Nat

/-- The state `Search::initialize()` produces (all tables zeroed, the
generator freshly seeded). -/
def initG : GState where
  tt := fun _ => ⟨0, 0, 0, 0, 0⟩
  killers := fun _ _ => 0
  history := fun _ _ => 0
  rngIdx := 0
  nodes := 0

/-- External inputs of the search. -/
structure Ctx where
  eval : Board → Int
  draws : Nat → Nat
  stop : Bool
  maxLim : Int

def bumpNodes (g : GState) : GState := { g with nodes := g.nodes + 1 }

/-- `Search::tt_index`. -/
def tt_index (h : Nat) : Nat := h &&& (TT_SIZE - 1)

/-- `Search::tt_store` (always-replace). -/
def tt_store (g : GState) (h : Nat) (depth score : Int) (move : Nat) (flag : Nat) : GState :=
  { g with tt := fun i => if i = tt_index h then ⟨h, depth, score, move, flag⟩ else g.tt i }

/-- `Search::tt_probe`: a hit needs a hash match and stored depth at least
the requested depth; the flag is not consulted. -/
def tt_probe (g : GState) (h : Nat) (depth : Int) : Option (Int × Nat) :=
  let e := g.tt (tt_index h)
  if e.hash = h ∧ depth ≤ e.depth then some (e.score, e.move) else none

/-- `Search::update_history`: bump the (from,to) counter and halve the
whole table (clamped at 0) when the bumped entry exceeds 10000.  The
`depth` parameter is accepted and ignored, as in the source. -/
def update_history (g : GState) (move : Nat) (_depth : Nat) (bonus : Int) : GState :=
  let f := move >>> 6
  let t := move &&& 63
  let h := fun i j => if i = f ∧ j = t then g.history f t + bonus else g.history i j
  if h f t > 10000 then { g with history := fun i j => max 0 (h i j / 2) }
  else { g with history := h }

/-- The killer-move shift on a beta cutoff. -/
def pushKiller (g : GState) (depth move : Nat) : GState :=
  { g with killers := fun d i =>
      if d = depth then (if i = 0 then move else if i = 1 then g.killers depth 0 else g.killers d i)
      else g.killers d i }

/-- `Search::evaluate_position`: the oracle's white-relative score, negated
for black.  (The C++ round-trips through `get_fen`; the oracle is
abstracted as a function of the board.) -/
def evaluate_position (ctx : Ctx) (b : Board) (color : Int) : Int :=
  if color = 0 then ctx.eval b else -(ctx.eval b)

/-- The pawn block of `Search::make_move`: promotion (always to queen),
the en-passant removal, and the en-passant target update.  `b` is the
pre-move board (whose en-passant square the test reads), `nb` the board
after the piece relocation. -/
def mmPawn (b nb : Board) (f t piece : Nat) (color : Int) : Board :=
  if piece = PAWN then
    let nb :=
      if (color = 0 ∧ t / 8 = 7) ∨ (color = 1 ∧ t / 8 = 0) then
        add_piece (remove_piece nb (t : Int)) (t : Int) QUEEN color
      else nb
    let nb :=
      if b.en_passant_square = (t : Int) then
        let ep_rank : Int := if color = 0 then 4 else 3
        remove_piece nb ((t % 8 : Nat) + ep_rank * 8)
      else nb
    if ((t : Int) - (f : Int)).natAbs = 16 then
      { nb with en_passant_square := ((f : Int) + (t : Int)) / 2 }
    else { nb with en_passant_square := -1 }
  else { nb with en_passant_square := -1 }

/-- The castling-rights block of `Search::make_move` for a king move. -/
def mmKing (nb : Board) (piece : Nat) (color : Int) : Board :=
  if piece = KING then
    if color = 0 then castSet (castSet nb 0 0 false) 0 1 false
    else castSet (castSet nb 1 0 false) 1 1 false
  else nb

/-- The castling-rights block of `Search::make_move` for a rook move from
an original square. -/
def mmRook (nb : Board) (f piece : Nat) (color : Int) : Board :=
  if piece = ROOK then
    if color = 0 then
      let nb := if f = 0 then castSet nb 0 1 false else nb
      if f = 7 then castSet nb 0 0 false else nb
    else
      let nb := if f = 56 then castSet nb 1 1 false else nb
      if f = 63 then castSet nb 1 0 false else nb
  else nb

/-- `Search::make_move`, as the sequence of its blocks: relocate the
moving piece, pawn specials, castling updates, flip the side, recompute
the hash.  Note the capture handling: the comment in the source says the
captured piece was already removed, but only the origin square was
cleared — `add_piece` only ORs bits into the destination. -/
def make_move (b : Board) (move : Nat) : Board :=
  let f : Nat := move >>> 6
  let t : Nat := move &&& 63
  let piece := piece_at b (f : Int)
  let color := color_at b (f : Int)
  let nb := add_piece (remove_piece b (f : Int)) (t : Int) piece color
  let nb := mmPawn b nb f t piece color
  let nb := mmKing nb piece color
  let nb := mmRook nb f piece color
  let nb := { nb with side_to_move := 1 - color }
  { nb with hash := compute_hash nb }

/-- `Search::is_legal`: speculative application, then a check test — on
`1 - side_to_move`, the king of the side that did *not* move. -/
def is_legal (b : Board) (move : Nat) : Bool :=
  let test_board := make_move b move
  let color := 1 - b.side_to_move
  ! is_in_check test_board color

/-- `Search::get_piece_value`. -/
def get_piece_value (piece : Nat) : Int :=
  if piece = PAWN then 100 else if piece = KNIGHT then 320 else if piece = BISHOP then 330
  else if piece = ROOK then 500 else if piece = QUEEN then 900 else if piece = KING then 20000
  else 0

/-- `Search::score_move_for_order`. -/
def score_move_for_order (g : GState) (b : Board) (move tt_move : Nat) (depth : Nat) : Int :=
  if move = tt_move then 100000
  else
    let f := move >>> 6
    let t := move &&& 63
    let piece := piece_at b (f : Int)
    let captured := piece_at b (t : Int)
    let s : Int := if captured ≠ NO_PIECE then
        10000 + get_piece_value captured * 10 - get_piece_value piece else 0
    let s := if move = g.killers depth 0 then 8000
      else if move = g.killers depth 1 then 7000 else s
    s + g.history f t

/-- Stable insertion of a move into a descending-score list.  `std::sort`
leaves the relative order of equal keys unspecified; the model fixes the
stable order (no theorem below depends on tie order). -/
def insertDesc (score : Nat → Int) (mv : Nat) : List Nat → List Nat
  | [] => [mv]
  | x :: xs => if score mv > score x then mv :: x :: xs else x :: insertDesc score mv xs

/-- Descending sort by a score function (`Search::order_moves` and the
MVV-LVA sort in `quiescence_search`). -/
def sortDesc (score : Nat → Int) (l : List Nat) : List Nat :=
  l.foldr (insertDesc score) []

/-- `Search::generate_candidates` (the Kotov filter), threading the
position in the random-draw stream: a quiet non-pawn non-king move draws
one value and survives when it is below 30. -/
def generate_candidates (ctx : Ctx) (b : Board) (ri : Nat) : List Nat × Nat :=
  (generate_moves b).foldl
    (fun (acc : List Nat × Nat) mv =>
      if ! is_legal b mv then acc
      else
        let f := mv >>> 6
        let t := mv &&& 63
        let piece := piece_at b (f : Int)
        let captured := piece_at b (t : Int)
        let color := color_at b (f : Int)
        let push : Int := (t : Int) - (f : Int)
        let included :=
          captured ≠ NO_PIECE ∨ piece = KING ∨
          (piece = PAWN ∧ (push = 8 ∨ push = -8 ∨ push = 16 ∨ push = -16 ∨
                           push = 7 ∨ push = 9 ∨ push = -7 ∨ push = -9)) ∨
          is_in_check (make_move b mv) (1 - color) = true
        if included then (acc.1 ++ [mv], acc.2)
        else if piece ≠ PAWN ∧ piece ≠ KING then
          (if ctx.draws acc.2 < 30 then (acc.1 ++ [mv], acc.2 + 1) else (acc.1, acc.2 + 1))
        else acc)
    ([], ri)

/-- The union of the six piece-type bitboards. -/
def typeUnion (b : Board) : Nat :=
  b.pieces 1 ||| b.pieces 2 ||| b.pieces 3 ||| b.pieces 4 ||| b.pieces 5 ||| b.pieces 6

/-- The union of every piece and color bitboard. -/
def unionAll (b : Board) : Nat := typeUnion b ||| b.colors 0 ||| b.colors 1

/-- The number of occupied squares — the bits set in the union of every
piece and color bitboard.  This is the measure that bounds the quiescence
recursion (each searched capture clears the origin square and frees no new
square). -/
def occB (b : Board) : Nat := (bitsOf (unionAll b)).length

/-- The legal-capture list `quiescence_search` builds before recursing. -/
def qCaptures (b : Board) : List Nat :=
  (generate_moves b).filter (fun mv =>
    is_legal b mv && piece_at b ((mv &&& 63 : Nat) : Int) ≠ NO_PIECE)

/-- The MVV-LVA sort key of the capture sort in `quiescence_search`. -/
def qScore (b : Board) (mv : Nat) : Int :=
  get_piece_value (piece_at b ((mv &&& 63 : Nat) : Int)) * 10 -
  get_piece_value (piece_at b ((mv >>> 6 : Nat) : Int))

/-- The capture loop of `quiescence_search`, with the recursive call
abstracted (it is instantiated with the next lower fuel). -/
def qLoop (ctx : Ctx) (recur : Board → Int → Int → Int → GState → Int × GState)
    (b : Board) (beta : Int) (color : Int) :
    List Nat → Int → GState → Int × GState
  | [], alpha, g => (alpha, g)
  | mv :: rest, alpha, g =>
      if ctx.stop then (alpha, g)
      else
        let pr := recur (make_move b mv) (-beta) (-alpha) (1 - color) g
        let score := -pr.1
        if score > alpha then
          if score ≥ beta then (beta, pr.2)
          else qLoop ctx recur b beta color rest score pr.2
        else qLoop ctx recur b beta color rest alpha pr.2

/-- `Search::quiescence_search`, with an explicit fuel.  The source has no
fuel; `quiescence_terminates` below shows any fuel above the occupied
square count gives the same result, so `quiescence_search` instantiates
the fuel with that bound. -/
def quiesceF (ctx : Ctx) : Nat → Board → Int → Int → Int → GState → Int × GState
  | 0, _, alpha, _, _, g => (alpha, g)
  | fuel + 1, b, alpha, beta, color, g =>
      let g := bumpNodes g
      let stand_pat := evaluate_position ctx b color
      if stand_pat ≥ beta then (beta, g)
      else
        let alpha := if stand_pat > alpha then stand_pat else alpha
        let captures := sortDesc (qScore b) (qCaptures b)
        qLoop ctx (quiesceF ctx fuel) b beta color captures alpha g

/-- `Search::quiescence_search` at the canonical sufficient fuel. -/
def quiescence_search (ctx : Ctx) (b : Board) (alpha beta : Int) (color : Int) (g : GState) :
    Int × GState :=
  quiesceF ctx (occB b + 1) b alpha beta color g

/-- The move loop of `alpha_beta` (state: best score, best move, flag,
alpha).  The `Bool` result marks the abandon-without-store path taken when
the stop signal is observed mid-loop. -/
def abLoop (ctx : Ctx) (recur : Board → Int → Int → Int → GState → Int × GState)
    (b : Board) (beta : Int) (color : Int) (depth nmoves : Nat) :
    List Nat → Int → Nat → Nat → Int → GState → Bool × Int × Nat × Nat × GState
  | [], best, bestMv, flag, _, g => (false, best, bestMv, flag, g)
  | mv :: rest, best, bestMv, flag, alpha, g =>
      if ctx.stop then (true, best, bestMv, flag, g)
      else
        let pr := recur (make_move b mv) (-beta) (-alpha) (1 - color) g
        let score := -pr.1
        let g := pr.2
        if score > best then
          if score > alpha then
            if score ≥ beta then
              let g := if 1 < nmoves then pushKiller g depth mv else g
              let g := update_history g mv depth ((depth : Int) * (depth : Int))
              (false, score, mv, 2, g)
            else abLoop ctx recur b beta color depth nmoves rest score mv 3 score g
          else abLoop ctx recur b beta color depth nmoves rest score mv flag alpha g
        else abLoop ctx recur b beta color depth nmoves rest best bestMv flag alpha g

/-- The body of `alpha_beta` after the entry checks: in-check shortcut,
candidate generation, ordering, the move loop, and the table store. -/
def abMain (ctx : Ctx) (recur : Board → Int → Int → Int → GState → Int × GState)
    (depth : Nat) (b : Board) (alpha beta : Int) (color : Int) (tm : Nat) (g : GState) :
    Int × GState :=
  if is_in_check b color then (-10000 + (ctx.maxLim - (depth : Int)), g)
  else
    let mr := generate_candidates ctx b g.rngIdx
    let g := { g with rngIdx := mr.2 }
    let moves := mr.1
    if moves = [] then (evaluate_position ctx b color, g)
    else
      let sorted := sortDesc (fun mv => score_move_for_order g b mv tm depth) moves
      match abLoop ctx recur b beta color depth sorted.length sorted (-INTMAX)
          (sorted.headD 0) 1 alpha g with
      | (true, _, _, _, g) => (0, g)
      | (false, best, bestMv, flag, g) =>
          (best, tt_store g b.hash (depth : Int) best bestMv flag)

/-- `Search::alpha_beta`, structurally recursive on the depth.  A probe
miss leaves the C++ `tt_move` local uninitialised; it is modelled as 0
(which matches no generated move). -/
def alpha_beta (ctx : Ctx) : Nat → Board → Int → Int → Int → GState → Int × GState
  | 0, b, alpha, beta, color, g =>
      let g := bumpNodes g
      if ctx.stop then (0, g)
      else quiescence_search ctx b alpha beta color g
  | depth + 1, b, alpha, beta, color, g =>
      let g := bumpNodes g
      if ctx.stop then (0, g)
      else
        match tt_probe g b.hash ((depth : Int) + 1) with
        | some (ts, tm) =>
            if ts ≥ beta then (beta, g)
            else if ts ≤ alpha then (alpha, g)
            else abMain ctx (alpha_beta ctx depth) (depth + 1) b alpha beta color tm g
        | none => abMain ctx (alpha_beta ctx depth) (depth + 1) b alpha beta color 0 g

/-- `SearchResult` (the wall-clock `time_ms` field is outside the model). -/
structure SearchResult where
  best_move : Nat
  score : Int
  depth : Nat
  nodes : Nat
deriving DecidableEq, Repr

/-- The iterative-deepening loop of `Search::search` over the remaining
depths, carrying the result and state. -/
def iterDeep (ctx : Ctx) (b : Board) (legal : List Nat) :
    List Nat → SearchResult → GState → SearchResult × GState
  | [], res, g => (res, g)
  | d :: rest, res, g =>
      if ctx.stop then (res, g)
      else
        let pr := alpha_beta ctx d b (-INTMAX) INTMAX b.side_to_move g
        let g := pr.2
        let tt_move := (g.tt (tt_index b.hash)).move
        let best := if tt_move ∈ legal then tt_move else legal.headD 0
        let res := { res with score := pr.1, depth := d, best_move := best }
        if ctx.stop then (res, g) else iterDeep ctx b legal rest res g

/-- `Search::search`: parse the FEN, collect the (pseudo-legal!) fallback
move list, run iterative deepening, and apply the final fallback.  `none`
models the `std::stoi` exception propagating out of `set_from_fen`; the
time-budget parameter only feeds the unmodelled wall clock. -/
def search (ctx : Ctx) (fen : String) (max_search_depth : Nat) (g0 : GState) :
    Option (SearchResult × GState) :=
  match set_from_fen fen with
  | none => none
  | some (b, _) =>
      let res : SearchResult := ⟨0, 0, max_search_depth, 0⟩
      let g := { g0 with nodes := 0 }
      let legal_moves := generate_moves b
      if legal_moves = [] then some ({ res with nodes := g.nodes }, g)
      else
        let pr := iterDeep ctx b legal_moves (List.range' 1 max_search_depth) res g
        let res := { pr.1 with nodes := pr.2.nodes }
        let res := if res.best_move == 0 && ! legal_moves.isEmpty then
            { res with best_move := legal_moves.headD 0 } else res
        some (res, pr.2)

/-! ## Specification-side predicates

These definitions follow the specification's words (not the search code)
and exist to compare the code against them: legality per §4.2 is "apply
the move speculatively and test whether the *mover's* king is attacked",
and placement consistency per §3 is "for every occupied square exactly one
piece-type bit-set and exactly one side bit-set are set". -/

/-- Legality as the specification defines it: after the speculative
application, the king of the side that just moved is not attacked. -/
def spec_legal (b : Board) (mv : Nat) : Bool :=
  ! is_in_check (make_move b mv) b.side_to_move

/-- The specification's legal-move set: pseudo-legal moves surviving
`spec_legal`. -/
def spec_legal_moves (b : Board) : List Nat :=
  (generate_moves b).filter (spec_legal b)

/-- How many piece-type bit-sets have a square set. -/
def typeCountAt (b : Board) (sq : Nat) : Nat :=
  ((List.range' 1 6).filter (fun pt => (b.pieces pt).testBit sq)).length

/-- How many side bit-sets have a square set. -/
def colorCountAt (b : Board) (sq : Nat) : Nat :=
  (([0, 1] : List Nat).filter (fun c => (b.colors c).testBit sq)).length

/-- Placement consistency (§3): every occupied square has exactly one
piece-type bit and exactly one side bit. -/
def placementConsistent (b : Board) : Bool :=
  (List.range 64).all (fun sq =>
    (typeCountAt b sq = 0 ∧ colorCountAt b sq = 0) ∨
    (typeCountAt b sq = 1 ∧ colorCountAt b sq = 1))

/-- The total number of set piece-type bits — the "piece count" in the
sense of the placement bit-sets. -/
def pieceBitCount (b : Board) : Nat :=
  ((List.range' 1 6).map (fun pt => (bitsOf (b.pieces pt)).length)).sum

/-- Occupancy bound used by the termination argument for the quiescence
recursion: every occupied square of `x` was occupied in `b`, except that
the origin square `f` has been vacated (`t` being the destination). -/
def subFT (b : Board) (f t : Nat) (x : Board) : Prop :=
  ∀ j, (unionAll x).testBit j = true →
    ((unionAll b).testBit j = true ∧ j ≠ f) ∨ j = t

/-! ## Concrete data for the claim theorems -/

/-- Parse a FEN that is known to parse (all the concrete inputs below). -/
def fenBoard (s : String) : Board := ((set_from_fen s).getD (resetBoard, false)).1

/-- A constant evaluation oracle.  Each theorem that uses it also notes
why its conclusion does not depend on the oracle (the computations never
reach an oracle-sensitive comparison). -/
def evalZero : Board → Int := fun _ => 0

/-- Context with a given draw stream, no stop signal, the default
`max_depth` limit 20. -/
def ctxOf (dr : Nat → Nat) : Ctx := ⟨evalZero, dr, false, 20⟩

/-- Draw stream that admits no optional candidate (every draw is 99). -/
def draws99 : Nat → Nat := fun _ => 99

/-- Draw stream for the determinism counterexample: the first run's first
draw and the second run's second draw admit a move, everything else is
rejected. -/
def drawsC8 : Nat → Nat := fun i => if i = 0 ∨ i = 5 then 0 else 99

/-- White rook a1, black knight a2, white to move: the capture a1xa2 is
the only candidate move under `draws99`. -/
def bC1 : Board := fenBoard "8/8/8/8/8/8/n7/R7 w - - 1 1"

/-- White Rb1+Ke1 against the lone black king a8: Rb1-a1 gives check. -/
def bC2 : Board := fenBoard "k7/8/8/8/8/8/8/1R2K3 w - - 1 1"

/-- White Ke1+Pa2 in check from the black rook e8 (black king h8): the
first generated move a2-a3 does not address the check; the king can step
to d1. -/
def fenC3 : String := "4r2k/8/8/8/8/8/P7/4K3 w - - 1 1"

def bC3 : Board := fenBoard fenC3

/-- The fool's-mate position: white is checkmated but has pseudo-legal
moves. -/
def fenC4 : String := "rnb1kbnr/pppp1ppp/8/4p3/6Pq/5P2/PPPPP2P/RNBQKBNR w KQkq - 0 3"

def bC4 : Board := fenBoard fenC4

/-- Starting placement with full castling rights. -/
def b5a : Board := fenBoard "rnbqkbnr/pppppppp/8/8/8/8/PPPPPPPP/RNBQKBNR w KQkq - 1 0"

/-- Same placement, no castling rights. -/
def b5b : Board := fenBoard "rnbqkbnr/pppppppp/8/8/8/8/PPPPPPPP/RNBQKBNR w - - 1 0"

/-- Same placement, an en-passant target square set. -/
def b5c : Board := fenBoard "rnbqkbnr/pppppppp/8/8/8/8/PPPPPPPP/RNBQKBNR w KQkq e3 1 0"

/-- White Ka1+Pg7 against black Rb8, Rh2, Kg4: white is not in check and
the promotion g7-g8 is the single legal move — and it gives check. -/
def bC6 : Board := fenBoard "1r6/6P1/8/8/6k1/8/7r/K7 w - - 1 1"

/-- A position description whose board field revisits square a8 (`Q8/7N`):
the parsed board carries two piece-type bits on one square. -/
def fenC7 : String := "Q8/7N w - - 1 1"

/-- Two white knights a1 and h1, nothing else: four quiet knight moves,
each gated by one random draw. -/
def fenC8 : String := "8/8/8/8/8/8/8/N6N w - - 1 1"

/-- The standard starting position (C9 round trip). -/
def fenC9 : String := "rnbqkbnr/pppppppp/8/8/8/8/PPPPPPPP/RNBQKBNR w KQkq - 0 1"

def bC9 : Board := fenBoard fenC9

/-- The reloaded result of serializing the starting position. -/
def bC9r : Board := fenBoard (get_fen bC9)

/-- White rook a1, black knight b1: a1xb1 is the one capture the
quiescence search recurses on. -/
def bC10 : Board := fenBoard "8/8/8/8/8/8/8/Rn6 w - - 1 1"

/-! ## Claim theorems -/

/-- Claim C1 (the code violates it): on the placement-consistent board
`bC1` (white rook a1, black knight a2), the capture a1xa2 — the only move
the candidate filter passes to the search here — produces a board that
violates placement consistency: the destination square a2 is left with
two piece-type bits (rook and knight) and both side bits set, because
`make_move` never removes the captured piece's bits. -/
theorem C1_capture_breaks_placement_consistency :
    placementConsistent bC1 = true ∧
    (generate_candidates (ctxOf draws99) bC1 0).1 = [8] ∧
    placementConsistent (make_move bC1 8) = false ∧
    typeCountAt (make_move bC1 8) 8 = 2 ∧
    colorCountAt (make_move bC1 8) 8 = 2 := by decide

/-- Claim C2 (the code violates it): `is_legal` tests the king of
`1 - side_to_move` — the opponent, not the mover.  On `bC2`, the rook
move b1-a1 gives check to the black king and is reported illegal although
the mover's king is not attacked afterwards; on `bC3`, the pawn move
a2-a3 leaves the mover's own king attacked by the rook e8 yet is reported
legal. -/
theorem C2_is_legal_tests_the_wrong_king :
    (64 ∈ generate_moves bC2) ∧ is_legal bC2 64 = false ∧
    is_in_check (make_move bC2 64) bC2.side_to_move = false ∧
    (528 ∈ generate_moves bC3) ∧ is_legal bC3 528 = true ∧
    is_in_check (make_move bC3 528) bC3.side_to_move = true := by decide

/-- Claim C3 (the code violates it): with a zero depth limit on `bC3`
(white in check from the rook e8, the legal Ke1-d1 available), `search`
returns the first *pseudo-legal* move a2-a3 (encoded 528), which leaves
the king in check — an illegal move, although a legal one exists. -/
theorem C3_zero_depth_returns_illegal_move :
    (search (ctxOf draws99) fenC3 0 initG).map (fun p => p.1.best_move) = some 528 ∧
    is_in_check bC3 bC3.side_to_move = true ∧
    spec_legal bC3 528 = false ∧
    (259 ∈ spec_legal_moves bC3) := by decide

/-- The zero-depth result does not depend on the context at all (the
iterative-deepening loop body never runs): the oracle, the draw stream and
the stop signal in `C3_zero_depth_returns_illegal_move` are irrelevant. -/
theorem search_zero_depth_ctx_free (ctx ctx' : Ctx) (fen : String) (g : GState) :
    search ctx fen 0 g = search ctx' fen 0 g := by
  cases h : set_from_fen fen <;> simp [search, h, iterDeep]

/-- Claim C4 counterexample: in the fool's-mate position (side to move
checkmated: in check, no `spec_legal` move), a depth-1 search returns the
pseudo-legal (and illegal) move a2-a3 with score −9981, not a no-move
result.  The oracle and the draw stream are never consulted on this path
(the in-check shortcut fires before candidate generation). -/
theorem C4_counterexample :
    (search (ctxOf draws99) fenC4 1 initG).map (fun p => (p.1.best_move, p.1.score)) =
      some (528, -9981) ∧
    is_in_check bC4 bC4.side_to_move = true ∧
    spec_legal_moves bC4 = [] ∧
    (528 : Nat) ≠ 0 := by decide

/-- Claim C5 counterexample: `b5a`/`b5b` differ only in castling rights
and `b5a`/`b5c` differ only in the en-passant target (placement and side
agree pointwise), yet the identity hashes are equal — not "different with
overwhelming probability". -/
theorem C5_counterexample :
    (∀ sq ∈ List.range 64, piece_at b5a (sq : Int) = piece_at b5b (sq : Int)) ∧
    (∀ sq ∈ List.range 64, piece_at b5a (sq : Int) = piece_at b5c (sq : Int)) ∧
    b5a.side_to_move = b5b.side_to_move ∧ b5a.side_to_move = b5c.side_to_move ∧
    b5a.castling ≠ b5b.castling ∧ b5a.hash = b5b.hash ∧
    b5a.en_passant_square ≠ b5c.en_passant_square ∧ b5a.hash = b5c.hash := by decide

/-- Claim C6 (the code violates it): `bC6` is not in check and has
exactly one legal move, the checking promotion g7-g8 (encoded 3518) — but
`generate_candidates` discards it (the mistaken legality test of C2
rejects every checking move) and returns three illegal king moves
instead.  The draw stream is never consulted (there are no quiet
non-pawn non-king moves), witnessed by the two streams agreeing. -/
theorem C6_filter_discards_the_only_legal_move :
    is_in_check bC6 bC6.side_to_move = false ∧
    spec_legal_moves bC6 = [3518] ∧
    (generate_candidates (ctxOf draws99) bC6 0).1 = [1, 8, 9] ∧
    (generate_candidates (ctxOf fun _ => 0) bC6 0).1 = [1, 8, 9] ∧
    (3518 ∉ (generate_candidates (ctxOf draws99) bC6 0).1) := by decide

/-- Claim C7 counterexample: the description `Q8/7N w - - 1 1` places a
queen and then a knight on a8, violating placement consistency, and
`set_from_fen` still reports success. -/
theorem C7_counterexample :
    (set_from_fen fenC7).map (fun p => (placementConsistent p.1, p.2)) =
      some (false, true) := by decide

/-- Claim C8 counterexample: two identical invocations of `search` on the
two-knight position, same depth 1 and no time limit, return different
best moves (a1-c2 = 10, then a1-b3 = 17): the candidate filter's draw
stream has advanced between the runs.  With singleton candidate sets in
both runs, the stored best move is the lone candidate, so the result does
not depend on the evaluation oracle. -/
theorem C8_counterexample :
    (search (ctxOf drawsC8) fenC8 1 initG).map (fun p => p.1.best_move) = some 10 ∧
    ((search (ctxOf drawsC8) fenC8 1 initG).bind
        (fun p => search (ctxOf drawsC8) fenC8 1 p.2)).map (fun p => p.1.best_move) =
      some 17 := by decide

/-- Claim C9 (the code violates it): `get_fen` draws its piece letter
from the lowercase literal `" pnbrqk"` and only ever lowers it further
for black, so white pieces serialize lowercase; reloading the serialized
starting position yields a board whose white bit-set is empty and whose
black bit-set holds all 32 pieces — the round trip does not reproduce the
placement (e.g. the king on e1 flips from white to black). -/
theorem C9_roundtrip_loses_piece_color :
    get_fen bC9 = "rnbqkbnr/pppppppp/8/8/8/8/pppppppp/rnbqkbnr w KQkq - 0 1" ∧
    bC9.colors 0 ≠ 0 ∧
    bC9r.colors 0 = 0 ∧
    bC9r.colors 1 = bC9.colors 0 ||| bC9.colors 1 ∧
    color_at bC9 4 = 0 ∧ color_at bC9r 4 = 1 := by decide

/-- Claim C10 counterexample: a1xb1 is the single capture the quiescence
search would recurse on from `bC10`, yet the resulting position does not
have strictly fewer pieces: the total piece-bit count stays 2 (the
knight's bit survives on b1 under the rook's).  What does decrease is the
occupied-square count. -/
theorem C10_counterexample :
    qCaptures bC10 = [1] ∧
    pieceBitCount (make_move bC10 1) = pieceBitCount bC10 ∧
    pieceBitCount bC10 = 2 ∧
    occB (make_move bC10 1) < occB bC10 := by decide

/-- Claim C7 amended: the load step never reports failure.  `set_from_fen`
performs no placement validation; it either returns `true` or (for a
malformed counter field) does not return at all — the modelled `std::stoi`
exception. -/
theorem C7_amended_load_never_reports_failure (s : String) :
    (set_from_fen s).map (fun p => p.2) ≠ some false := by
  simp only [set_from_fen, setFromFenL]
  split
  · simp
  · split <;> simp

/-- Claim C8 amended: the search is a deterministic function of the
position, the depth, and the hidden machine state that actually feeds it —
the transposition table, the killer and history tables, and the position
in the candidate filter's draw stream (the node counter is reset on
entry and does not matter).  Two invocations agreeing on those return
identical results. -/
theorem C8_amended_deterministic_given_state (ctx : Ctx) (fen : String) (d : Nat)
    (g g' : GState) (htt : g.tt = g'.tt) (hk : g.killers = g'.killers)
    (hh : g.history = g'.history) (hr : g.rngIdx = g'.rngIdx) :
    search ctx fen d g = search ctx fen d g' := by
  obtain ⟨t1, k1, h1, r1, n1⟩ := g
  obtain ⟨t2, k2, h2, r2, n2⟩ := g'
  simp only at htt hk hh hr
  subst htt hk hh hr
  rfl

theorem C8_amended_witness :
    search (ctxOf drawsC8) fenC8 1 initG =
      search (ctxOf drawsC8) fenC8 1 { initG with nodes := 5 } :=
  C8_amended_deterministic_given_state (ctxOf drawsC8) fenC8 1 initG
    { initG with nodes := 5 } rfl rfl rfl rfl

/-- A fold computes the same value when the step functions agree on the
list's elements. -/
theorem foldl_congr_mem {α β : Type} {l : List α} (f g : β → α → β) (i : β)
    (h : ∀ s a, a ∈ l → f s a = g s a) : l.foldl f i = l.foldl g i := by
  induction l generalizing i with
  | nil => rfl
  | cons x xs ih =>
      simp only [List.foldl_cons]
      rw [h i x (List.mem_cons_self x xs)]
      exact ih _ (fun s a ha => h s a (List.mem_cons_of_mem x ha))

/-- Claim C5 amended: the identity hash is a deterministic function of the
piece placement as seen by `piece_at` and the side to move alone — the
direction of the claim that holds.  (Castling rights and the en-passant
target are not inputs; `C5_counterexample` shows positions differing only
there collide with certainty, and `piece_at` also forgets the colors.) -/
theorem C5_amended_hash_function_of_placement_and_side (b b' : Board)
    (hp : ∀ sq ∈ List.range 64, piece_at b (sq : Int) = piece_at b' (sq : Int))
    (hs : b.side_to_move = b'.side_to_move) :
    compute_hash b = compute_hash b' := by
  simp only [compute_hash, hs]
  rw [foldl_congr_mem _ _ _ (fun s sq hsq => by rw [hp sq hsq])]

theorem C5_amended_witness :
    b5a.side_to_move = b5b.side_to_move ∧ compute_hash b5a = compute_hash b5b :=
  ⟨by decide,
   C5_amended_hash_function_of_placement_and_side b5a b5b (by decide) (by decide)⟩

/-- `alpha_beta` at positive depth on an in-check node with a cold table
slot: the probe misses, the in-check shortcut returns the mate-like score
penalised by the remaining depth, and the only state change is the node
counter. -/
theorem alpha_beta_in_check (ctx : Ctx) (hstop : ctx.stop = false)
    (d : Nat) (b : Board) (alpha beta : Int) (color : Int) (g : GState)
    (hchk : is_in_check b color = true)
    (hhash : (g.tt (tt_index b.hash)).hash ≠ b.hash) :
    alpha_beta ctx (d + 1) b alpha beta color g =
      (-10000 + (ctx.maxLim - ((d + 1 : Nat) : Int)), bumpNodes g) := by
  have htt : (bumpNodes g).tt = g.tt := rfl
  simp only [alpha_beta, hstop, Bool.false_eq_true, if_false, tt_probe, htt, hhash,
    false_and, if_false, abMain, hchk, if_true]

/-- `l.getLastD` ignores the default on a non-empty list. -/
theorem getLastD_ne_nil {l : List Nat} (h : l ≠ []) (x y : Nat) :
    l.getLastD x = l.getLastD y := by
  cases l with
  | nil => exact absurd rfl h
  | cons a as => simp [List.getLastD]

/-- The iterative-deepening loop over positive depths on an in-check root
with a cold, non-matching table slot: every iteration sets the best move
to the first pseudo-legal move and the score to the in-check score of its
depth, so the final result reflects the last depth. -/
theorem iterDeep_in_check (ctx : Ctx) (hstop : ctx.stop = false)
    (b : Board) (hchk : is_in_check b b.side_to_move = true) (legal : List Nat) :
    ∀ (ds : List Nat) (res : SearchResult) (g : GState), ds ≠ [] →
      (∀ d ∈ ds, 1 ≤ d) →
      (g.tt (tt_index b.hash)).hash ≠ b.hash →
      (g.tt (tt_index b.hash)).move ∉ legal →
      iterDeep ctx b legal ds res g =
        (⟨legal.headD 0, -10000 + (ctx.maxLim - (ds.getLastD 0 : Int)), ds.getLastD 0,
          res.nodes⟩,
         { g with nodes := g.nodes + ds.length }) := by
  intro ds
  induction ds with
  | nil => intro res g hne; exact absurd rfl hne
  | cons d rest ih =>
      intro res g _ hall hhash hmv
      obtain ⟨d', rfl⟩ : ∃ d', d = d' + 1 :=
        ⟨d - 1, by have := hall d (List.mem_cons_self d rest); omega⟩
      have htt : (bumpNodes g).tt = g.tt := rfl
      simp only [iterDeep, hstop, Bool.false_eq_true, if_false,
        alpha_beta_in_check ctx hstop d' b (-INTMAX) INTMAX b.side_to_move g hchk hhash,
        htt]
      rw [if_neg hmv]
      cases rest with
      | nil => rfl
      | cons r rs =>
          rw [show ((d' + 1) :: r :: rs).getLastD 0 = (r :: rs).getLastD 0 from by
            rw [List.getLastD_cons]
            exact getLastD_ne_nil (by simp) (d' + 1) 0]
          have hn : g.nodes + ((d' + 1) :: r :: rs).length =
              (bumpNodes g).nodes + (r :: rs).length := by
            simp only [List.length_cons, bumpNodes]
            omega
          rw [hn]
          exact ih _ (bumpNodes g) (by simp)
            (fun x hx => hall x (List.mem_cons_of_mem _ hx)) hhash hmv

/-- Claim C4 amended: a terminal position never raises a failure, but the
report the claim demands does not happen.  If the side to move has no
pseudo-legal moves at all, the search returns a result with no best move —
with score 0, not a maximally negative one.  In a checkmated position
that still has pseudo-legal moves (the normal case, e.g. fool's mate),
the search returns the mate-like score `-10000 + (depthLimit - maxDepth)`
together with the *first pseudo-legal move* as best move, not a no-move
result (the table hypotheses say the probed slot is cold, as after
`initialize()`). -/
theorem C4_amended_terminal_report (ctx : Ctx) (hstop : ctx.stop = false)
    (fen : String) (b : Board) (fl : Bool) (hparse : set_from_fen fen = some (b, fl))
    (maxD : Nat) (hD : 1 ≤ maxD) (g : GState) :
    (generate_moves b = [] →
      search ctx fen maxD g = some (⟨0, 0, maxD, 0⟩, { g with nodes := 0 })) ∧
    (generate_moves b ≠ [] →
      is_in_check b b.side_to_move = true →
      (g.tt (tt_index b.hash)).hash ≠ b.hash →
      (g.tt (tt_index b.hash)).move ∉ generate_moves b →
      search ctx fen maxD g =
        some (⟨(generate_moves b).headD 0, -10000 + (ctx.maxLim - (maxD : Int)), maxD, maxD⟩,
              { g with nodes := maxD })) := by
  constructor
  · intro hempty
    simp [search, hparse, hempty]
  · intro hne hchk hhash hmv
    have hds : (List.range' 1 maxD) ≠ [] := by
      simp only [ne_eq, List.range'_eq_nil]
      omega
    have hlast : (List.range' 1 maxD).getLastD 0 = maxD := by
      obtain ⟨k, rfl⟩ : ∃ k, maxD = k + 1 := ⟨maxD - 1, by omega⟩
      rw [List.range'_concat]
      simp
      omega
    simp only [search, hparse]
    rw [if_neg hne]
    rw [iterDeep_in_check ctx hstop b hchk (generate_moves b) (List.range' 1 maxD)
      ⟨0, 0, maxD, 0⟩ { g with nodes := 0 } hds
      (fun x hx => by
        have := List.mem_range'_1.mp hx
        omega)
      hhash hmv]
    rw [hlast, List.length_range']
    split <;> simp [GState.mk.injEq]

theorem C4_amended_witness :
    search (ctxOf draws99) fenC4 2 initG =
      some (⟨(generate_moves bC4).headD 0,
             -10000 + ((ctxOf draws99).maxLim - ((2 : Nat) : Int)), 2, 2⟩,
            { initG with nodes := 2 }) :=
  (C4_amended_terminal_report (ctxOf draws99) rfl fenC4 bC4 true rfl 2 (by omega) initG).2
    (by decide) (by decide) (by decide) (by decide)

/-! ## Bitboard lemmas for the quiescence termination argument (claim C10) -/

theorem mem_bitsOf {bb i : Nat} : i ∈ bitsOf bb ↔ i < 64 ∧ bb.testBit i = true := by
  simp [bitsOf, List.mem_filter, List.mem_range]

theorem bset_spec {bb : Nat} {s : Int} {j : Nat} (h : (bset bb s).testBit j = true) :
    bb.testBit j = true ∨ (0 ≤ s ∧ j = s.toNat) := by
  unfold bset at h
  split at h
  · rename_i hs
    rw [Nat.testBit_or, Nat.one_shiftLeft, Bool.or_eq_true] at h
    rcases h with h | h
    · exact Or.inl h
    · rw [Nat.testBit_two_pow] at h
      exact Or.inr ⟨hs.1, by simpa [eq_comm] using h⟩
  · exact Or.inl h

theorem bclear_le {bb : Nat} {s : Int} {j : Nat} (h : (bclear bb s).testBit j = true) :
    bb.testBit j = true := by
  unfold bclear at h
  split at h
  · rw [Nat.testBit_and, Bool.and_eq_true] at h
    exact h.1
  · exact h

theorem bclear_self {bb : Nat} {s : Int} (h0 : 0 ≤ s) (h64 : s < 64) :
    (bclear bb s).testBit s.toNat = false := by
  have hlt : s.toNat < 64 := by omega
  unfold bclear
  rw [if_pos ⟨h0, h64⟩, Nat.testBit_and]
  have hmask : ((U64 - 1) ^^^ (1 <<< s.toNat)).testBit s.toNat = false := by
    rw [Nat.testBit_xor, Nat.one_shiftLeft, Nat.testBit_two_pow,
      show U64 - 1 = 2 ^ 64 - 1 from rfl, Nat.testBit_two_pow_sub_one]
    simp [hlt]
  rw [hmask, Bool.and_false]

theorem bclear_idem (bb : Nat) (s : Int) : bclear (bclear bb s) s = bclear bb s := by
  unfold bclear
  split
  · apply Nat.eq_of_testBit_eq
    intro i
    simp [Nat.testBit_and, Bool.and_assoc]
  · rfl

theorem upd_self (f : Nat → Nat) (i v : Nat) : upd f i v i = v := by simp [upd]

theorem upd_other (f : Nat → Nat) (i v j : Nat) (h : j ≠ i) : upd f i v j = f j := by
  simp [upd, h]

theorem upd_testBit {ps : Nat → Nat} {i0 v i j : Nat}
    (h : ((upd ps i0 v) i).testBit j = true) :
    (ps i).testBit j = true ∨ (i = i0 ∧ v.testBit j = true) := by
  unfold upd at h
  split at h
  · exact Or.inr ⟨by assumption, h⟩
  · exact Or.inl h

/-- Each piece board after the `remove_piece` fold is the original or the
original with the square cleared. -/
theorem removeFold_cases (s : Int) (l : List Nat) :
    ∀ (ps : Nat → Nat) (pt : Nat),
      (l.foldl (fun ps pt => if bbTest (ps pt) s then upd ps pt (bclear (ps pt) s) else ps) ps) pt
          = ps pt ∨
      (l.foldl (fun ps pt => if bbTest (ps pt) s then upd ps pt (bclear (ps pt) s) else ps) ps) pt
          = bclear (ps pt) s := by
  induction l with
  | nil => intro ps pt; exact Or.inl rfl
  | cons x xs ih =>
      intro ps pt
      simp only [List.foldl_cons]
      have hstep :
          (if bbTest (ps x) s then upd ps x (bclear (ps x) s) else ps) pt = ps pt ∨
          (if bbTest (ps x) s then upd ps x (bclear (ps x) s) else ps) pt = bclear (ps pt) s := by
        split
        · by_cases hx : pt = x
          · subst hx; exact Or.inr (upd_self ps pt _)
          · exact Or.inl (upd_other ps x _ pt hx)
        · exact Or.inl rfl
      rcases ih (if bbTest (ps x) s then upd ps x (bclear (ps x) s) else ps) pt with h | h <;>
        rw [h] <;> rcases hstep with h2 | h2 <;> rw [h2]
      · exact Or.inl rfl
      · exact Or.inr rfl
      · exact Or.inr rfl
      · rw [bclear_idem]; exact Or.inr rfl

/-- Every piece board whose index the `remove_piece` fold visits has the
square cleared afterwards. -/
theorem removeFold_clear (s : Int) (h0 : 0 ≤ s) (h64 : s < 64) (l : List Nat) :
    ∀ (ps : Nat → Nat) (pt : Nat), pt ∈ l →
      ((l.foldl (fun ps pt => if bbTest (ps pt) s then upd ps pt (bclear (ps pt) s) else ps) ps)
          pt).testBit s.toNat = false := by
  induction l with
  | nil => intro ps pt h; simp at h
  | cons x xs ih =>
      intro ps pt hpt
      simp only [List.foldl_cons]
      rcases List.mem_cons.mp hpt with rfl | hmem
      · have hstep :
            ((if bbTest (ps pt) s then upd ps pt (bclear (ps pt) s) else ps) pt).testBit s.toNat
              = false := by
          split
          · rw [upd_self]; exact bclear_self h0 h64
          · rename_i hb
            unfold bbTest at hb
            rw [if_pos ⟨h0, h64⟩] at hb
            simpa using hb
        rcases removeFold_cases s xs _ pt with h | h <;> rw [h]
        · exact hstep
        · exact bclear_self h0 h64
      · exact ih _ pt hmem

theorem typeUnion_of_pieces {b : Board} {pt j : Nat} (h1 : 1 ≤ pt) (h6 : pt ≤ 6)
    (h : (b.pieces pt).testBit j = true) : (typeUnion b).testBit j = true := by
  interval_cases pt <;> simp [typeUnion, Nat.testBit_or, h]

theorem unionAll_of_colors {b : Board} {c j : Nat} (hc : c ≤ 1)
    (h : (b.colors c).testBit j = true) : (unionAll b).testBit j = true := by
  interval_cases c <;> simp [unionAll, Nat.testBit_or, h]

/-- Occupied squares only disappear under `remove_piece`. -/
theorem remove_piece_union {b : Board} {s : Int} {j : Nat}
    (h : (unionAll (remove_piece b s)).testBit j = true) :
    (unionAll b).testBit j = true := by
  unfold remove_piece at h
  unfold unionAll typeUnion at h ⊢
  simp only [Nat.testBit_or, Bool.or_eq_true] at h ⊢
  rcases h with ((((((h | h) | h) | h) | h) | h) | h) | h
  · rcases removeFold_cases s (List.range' 1 6) b.pieces 1 with hc | hc <;> rw [hc] at h
    · exact Or.inl (Or.inl (Or.inl (Or.inl (Or.inl (Or.inl (Or.inl h))))))
    · exact Or.inl (Or.inl (Or.inl (Or.inl (Or.inl (Or.inl (Or.inl (bclear_le h)))))))
  · rcases removeFold_cases s (List.range' 1 6) b.pieces 2 with hc | hc <;> rw [hc] at h
    · exact Or.inl (Or.inl (Or.inl (Or.inl (Or.inl (Or.inl (Or.inr h))))))
    · exact Or.inl (Or.inl (Or.inl (Or.inl (Or.inl (Or.inl (Or.inr (bclear_le h)))))))
  · rcases removeFold_cases s (List.range' 1 6) b.pieces 3 with hc | hc <;> rw [hc] at h
    · exact Or.inl (Or.inl (Or.inl (Or.inl (Or.inl (Or.inr h)))))
    · exact Or.inl (Or.inl (Or.inl (Or.inl (Or.inl (Or.inr (bclear_le h))))))
  · rcases removeFold_cases s (List.range' 1 6) b.pieces 4 with hc | hc <;> rw [hc] at h
    · exact Or.inl (Or.inl (Or.inl (Or.inl (Or.inr h))))
    · exact Or.inl (Or.inl (Or.inl (Or.inl (Or.inr (bclear_le h)))))
  · rcases removeFold_cases s (List.range' 1 6) b.pieces 5 with hc | hc <;> rw [hc] at h
    · exact Or.inl (Or.inl (Or.inl (Or.inr h)))
    · exact Or.inl (Or.inl (Or.inl (Or.inr (bclear_le h))))
  · rcases removeFold_cases s (List.range' 1 6) b.pieces 6 with hc | hc <;> rw [hc] at h
    · exact Or.inl (Or.inl (Or.inr h))
    · exact Or.inl (Or.inl (Or.inr (bclear_le h)))
  · rw [upd_other _ _ _ _ (by omega), upd_self] at h
    exact Or.inl (Or.inr (bclear_le h))
  · rw [upd_self] at h
    exact Or.inr (bclear_le h)

/-- `remove_piece` at an in-range square vacates that square. -/
theorem remove_piece_union_ne {b : Board} {s : Int} (h0 : 0 ≤ s) (h64 : s < 64) {j : Nat}
    (h : (unionAll (remove_piece b s)).testBit j = true) : j ≠ s.toNat := by
  rintro rfl
  unfold remove_piece unionAll typeUnion at h
  simp only [Nat.testBit_or, Bool.or_eq_true] at h
  rcases h with ((((((h | h) | h) | h) | h) | h) | h) | h
  · rw [removeFold_clear s h0 h64 (List.range' 1 6) b.pieces 1 (by decide)] at h; exact absurd h (by simp)
  · rw [removeFold_clear s h0 h64 (List.range' 1 6) b.pieces 2 (by decide)] at h; exact absurd h (by simp)
  · rw [removeFold_clear s h0 h64 (List.range' 1 6) b.pieces 3 (by decide)] at h; exact absurd h (by simp)
  · rw [removeFold_clear s h0 h64 (List.range' 1 6) b.pieces 4 (by decide)] at h; exact absurd h (by simp)
  · rw [removeFold_clear s h0 h64 (List.range' 1 6) b.pieces 5 (by decide)] at h; exact absurd h (by simp)
  · rw [removeFold_clear s h0 h64 (List.range' 1 6) b.pieces 6 (by decide)] at h; exact absurd h (by simp)
  · rw [upd_other _ _ _ _ (by omega), upd_self] at h
    rw [bclear_self h0 h64] at h; exact absurd h (by simp)
  · rw [upd_self] at h
    rw [bclear_self h0 h64] at h; exact absurd h (by simp)

/-- `add_piece` only ever occupies the target square. -/
theorem add_piece_union {b : Board} {s : Int} {pt : Nat} {c : Int} (hpt : pt ≤ 6) {j : Nat}
    (h : (unionAll (add_piece b s pt c)).testBit j = true) :
    (unionAll b).testBit j = true ∨ (0 ≤ s ∧ j = s.toNat) := by
  unfold add_piece at h
  split at h
  · exact Or.inl h
  · rename_i hpt0
    have key : ∀ i : Nat, ((upd b.pieces pt (bset (b.pieces pt) s)) i).testBit j = true →
        1 ≤ i → i ≤ 6 →
        (unionAll b).testBit j = true ∨ (0 ≤ s ∧ j = s.toNat) := by
      intro i hi h1 h6
      rcases upd_testBit hi with hh | ⟨rfl, hh⟩
      · exact Or.inl (by
          unfold unionAll
          simp only [Nat.testBit_or, Bool.or_eq_true]
          exact Or.inl (Or.inl (typeUnion_of_pieces h1 h6 hh)))
      · rcases bset_spec hh with hh | hh
        · exact Or.inl (by
            unfold unionAll
            simp only [Nat.testBit_or, Bool.or_eq_true]
            exact Or.inl (Or.inl (typeUnion_of_pieces h1 h6 hh)))
        · exact Or.inr hh
    split at h
    · rename_i hc
      unfold unionAll typeUnion at h
      simp only [Nat.testBit_or, Bool.or_eq_true] at h
      rcases h with ((((((h | h) | h) | h) | h) | h) | h) | h
      · exact key 1 h (by omega) (by omega)
      · exact key 2 h (by omega) (by omega)
      · exact key 3 h (by omega) (by omega)
      · exact key 4 h (by omega) (by omega)
      · exact key 5 h (by omega) (by omega)
      · exact key 6 h (by omega) (by omega)
      · rcases upd_testBit h with hh | ⟨h0, hh⟩
        · exact Or.inl (unionAll_of_colors (by omega) hh)
        · rcases bset_spec hh with hh | hh
          · exact Or.inl (unionAll_of_colors (by omega) hh)
          · exact Or.inr hh
      · rcases upd_testBit h with hh | ⟨h0, hh⟩
        · exact Or.inl (unionAll_of_colors (by omega) hh)
        · rcases bset_spec hh with hh | hh
          · exact Or.inl (unionAll_of_colors (by omega) hh)
          · exact Or.inr hh
    · unfold unionAll typeUnion at h
      simp only [Nat.testBit_or, Bool.or_eq_true] at h
      rcases h with ((((((h | h) | h) | h) | h) | h) | h) | h
      · exact key 1 h (by omega) (by omega)
      · exact key 2 h (by omega) (by omega)
      · exact key 3 h (by omega) (by omega)
      · exact key 4 h (by omega) (by omega)
      · exact key 5 h (by omega) (by omega)
      · exact key 6 h (by omega) (by omega)
      · exact Or.inl (unionAll_of_colors (by omega) h)
      · exact Or.inl (unionAll_of_colors (by omega) h)

theorem unionAll_of_typeUnion {b : Board} {j : Nat} (h : (typeUnion b).testBit j = true) :
    (unionAll b).testBit j = true := by
  unfold unionAll
  simp [Nat.testBit_or, h]

theorem piece_at_le (b : Board) (x : Int) : piece_at b x ≤ 6 := by
  unfold piece_at
  split
  · simp [NO_PIECE]
  · cases hf : (List.range' 1 6).find? (fun pt => (b.pieces pt).testBit x.toNat) with
    | none => simp [hf, NO_PIECE]
    | some pt =>
        have hmem := List.mem_of_find?_eq_some hf
        have := List.mem_range'_1.mp hmem
        simp [hf]
        omega

theorem piece_at_pos {b : Board} {x : Int} (h : piece_at b x ≠ NO_PIECE) :
    0 ≤ x ∧ x < 64 ∧ ∃ pt, 1 ≤ pt ∧ pt ≤ 6 ∧ (b.pieces pt).testBit x.toNat = true := by
  unfold piece_at at h
  split at h
  · exact absurd rfl h
  · rename_i hx
    push_neg at hx
    refine ⟨by omega, by omega, ?_⟩
    cases hf : (List.range' 1 6).find? (fun pt => (b.pieces pt).testBit x.toNat) with
    | none => rw [hf] at h; exact absurd rfl h
    | some pt =>
        have hp := List.find?_some hf
        have hmem := List.mem_range'_1.mp (List.mem_of_find?_eq_some hf)
        exact ⟨pt, by omega, by omega, by simpa using hp⟩

/-- `subFT` is preserved by a conditional when both branches preserve it. -/
theorem subFT_ite {b : Board} {f t : Nat} (c : Prop) [Decidable c] {x y : Board}
    (hx : subFT b f t x) (hy : subFT b f t y) : subFT b f t (if c then x else y) := by
  split
  · exact hx
  · exact hy

theorem subFT_castSet {b x : Board} {f t : Nat} (c s : Nat) (v : Bool)
    (h : subFT b f t x) : subFT b f t (castSet x c s v) := h

theorem subFT_ep {b x : Board} {f t : Nat} (e : Int) (h : subFT b f t x) :
    subFT b f t { x with en_passant_square := e } := h

theorem subFT_upd_side_hash {b x : Board} {f t : Nat} (sd : Int) (hs : Nat)
    (h : subFT b f t x) :
    subFT b f t { { x with side_to_move := sd } with hash := hs } := h

theorem subFT_remove {b x : Board} {f t : Nat} (s : Int) (h : subFT b f t x) :
    subFT b f t (remove_piece x s) := fun j hj => h j (remove_piece_union hj)

theorem subFT_promo {b x : Board} {f t : Nat} (c : Int) (h : subFT b f t x) :
    subFT b f t (add_piece (remove_piece x ((t : Nat) : Int)) ((t : Nat) : Int) QUEEN c) := by
  intro j hj
  rcases add_piece_union (by decide) hj with h1 | h1
  · exact h j (remove_piece_union h1)
  · right
    have := h1.2
    simpa using this

theorem subFT_core (b : Board) (f t pt : Nat) (c : Int) (hf : f < 64) (hpt : pt ≤ 6) :
    subFT b f t (add_piece (remove_piece b ((f : Nat) : Int)) ((t : Nat) : Int) pt c) := by
  intro j hj
  rcases add_piece_union hpt hj with h | h
  · refine Or.inl ⟨remove_piece_union h, ?_⟩
    have hne := remove_piece_union_ne (s := ((f : Nat) : Int)) (by omega) (by omega) h
    simpa using hne
  · right
    have := h.2
    simpa using this

theorem subFT_mmPawn {b0 b x : Board} {f t piece : Nat} {color : Int}
    (h : subFT b f t x) : subFT b f t (mmPawn b0 x f t piece color) := by
  have h1 : subFT b f t (if (color = 0 ∧ t / 8 = 7) ∨ (color = 1 ∧ t / 8 = 0) then
      add_piece (remove_piece x (t : Int)) (t : Int) QUEEN color else x) :=
    subFT_ite _ (subFT_promo _ h) h
  unfold mmPawn
  split
  · apply subFT_ite <;> apply subFT_ep <;> exact subFT_ite _ (subFT_remove _ h1) h1
  · exact subFT_ep _ h

theorem subFT_mmKing {b x : Board} {f t piece : Nat} {color : Int}
    (h : subFT b f t x) : subFT b f t (mmKing x piece color) := by
  unfold mmKing
  split
  · split
    · exact h
    · exact h
  · exact h

theorem subFT_mmRook {b x : Board} {f t f0 piece : Nat} {color : Int}
    (h : subFT b f t x) : subFT b f t (mmRook x f0 piece color) := by
  have h1 : subFT b f t (if f0 = 0 then castSet x 0 1 false else x) :=
    subFT_ite _ (subFT_castSet _ _ _ h) h
  have h2 : subFT b f t (if f0 = 56 then castSet x 1 1 false else x) :=
    subFT_ite _ (subFT_castSet _ _ _ h) h
  unfold mmRook
  split
  · split
    · exact subFT_ite _ (subFT_castSet _ _ _ h1) h1
    · exact subFT_ite _ (subFT_castSet _ _ _ h2) h2
  · exact h

/-- `make_move` can only vacate the origin square: every occupied square of
the successor was occupied before, except possibly the destination. -/
theorem make_move_subFT (b : Board) (mv : Nat) (hf : mv >>> 6 < 64) :
    subFT b (mv >>> 6) (mv &&& 63) (make_move b mv) := by
  have h0 : subFT b (mv >>> 6) (mv &&& 63)
      (add_piece (remove_piece b ((mv >>> 6 : Nat) : Int)) ((mv &&& 63 : Nat) : Int)
        (piece_at b ((mv >>> 6 : Nat) : Int)) (color_at b ((mv >>> 6 : Nat) : Int))) :=
    subFT_core b _ _ _ _ hf (piece_at_le b _)
  exact subFT_mmRook (subFT_mmKing (subFT_mmPawn h0))

/-! ## Provenance of generated moves -/

theorem decode_f {f t : Nat} (ht : t < 64) : mkMove f t >>> 6 = f := by
  apply Nat.eq_of_testBit_eq
  intro i
  have h64 : (64 : Nat) ≤ 2 ^ (6 + i) := by
    rw [show (64 : Nat) = 2 ^ 6 from rfl]
    exact Nat.pow_le_pow_right (by omega) (by omega)
  have h1 : t.testBit (6 + i) = false :=
    Nat.testBit_lt_two_pow (Nat.lt_of_lt_of_le ht h64)
  rw [Nat.testBit_shiftRight, mkMove, Nat.testBit_or, Nat.testBit_shiftLeft, h1]
  have h2 : 6 + i - 6 = i := by omega
  simp [h2]

theorem decode_t {f t : Nat} (ht : t < 64) : mkMove f t &&& 63 = t := by
  apply Nat.eq_of_testBit_eq
  intro i
  rw [mkMove, Nat.testBit_and, Nat.testBit_or, Nat.testBit_shiftLeft]
  have h63 : (63 : Nat).testBit i = decide (i < 6) := by
    rw [show (63 : Nat) = 2 ^ 6 - 1 from rfl, Nat.testBit_two_pow_sub_one]
  rw [h63]
  by_cases hi : i < 6
  · have h6 : ¬(6 ≤ i) := by omega
    simp [hi, h6]
  · have h64 : (64 : Nat) ≤ 2 ^ i := by
      rw [show (64 : Nat) = 2 ^ 6 from rfl]
      exact Nat.pow_le_pow_right (by omega) (by omega)
    have h2 : t.testBit i = false :=
      Nat.testBit_lt_two_pow (Nat.lt_of_lt_of_le ht h64)
    simp [hi, h2]

theorem pieceGen_shape {att our : Nat} {sq mv : Nat}
    (hour : our.testBit sq = true) (h : mv ∈ pieceGen att our sq) :
    mv >>> 6 = sq ∧ (mv &&& 63) < 64 ∧ mv >>> 6 ≠ mv &&& 63 := by
  unfold pieceGen at h
  rcases List.mem_map.mp h with ⟨t, hmem, rfl⟩
  rcases mem_bitsOf.mp hmem with ⟨ht64, htb⟩
  rw [Nat.testBit_and, Bool.and_eq_true] at htb
  have hnot : our.testBit t = false := by
    have hc := htb.2
    unfold bcompl at hc
    rw [Nat.testBit_xor, show U64 - 1 = 2 ^ 64 - 1 from rfl,
      Nat.testBit_two_pow_sub_one] at hc
    cases hx : our.testBit t
    · rfl
    · rw [hx] at hc
      simp [ht64] at hc
  have hne : sq ≠ t := by
    rintro rfl
    rw [hnot] at hour
    exact absurd hour (by simp)
  rw [decode_f ht64, decode_t ht64]
  exact ⟨rfl, ht64, hne⟩

/-- The side to move of any board with a nonempty `pieces_of_color` mask
is white or black. -/
theorem stm_of_mask {b : Board} {x sq : Nat}
    (h : (x &&& pieces_of_color b b.side_to_move).testBit sq = true) :
    b.side_to_move = 0 ∨ b.side_to_move = 1 := by
  unfold pieces_of_color at h
  by_cases hg : 0 ≤ b.side_to_move ∧ b.side_to_move < 2
  · omega
  · rw [if_neg hg] at h
    rw [Nat.testBit_and] at h
    simp at h

theorem pawnGen_shape {b : Board} {enemy : Nat} {sq mv : Nat} (hsq : sq < 64)
    (hstm : b.side_to_move = 0 ∨ b.side_to_move = 1)
    (h : mv ∈ pawnGen b enemy sq) :
    mv >>> 6 = sq ∧ (mv &&& 63) < 64 ∧ mv >>> 6 ≠ mv &&& 63 := by
  have hdir : pawnMoveDir b.side_to_move = 8 ∨ pawnMoveDir b.side_to_move = -8 := by
    rcases hstm with hs | hs <;> simp [pawnMoveDir, hs]
  simp only [pawnGen] at h
  rcases List.mem_append.mp h with h | h
  · -- pushes
    split at h
    · rename_i hfwd
      obtain ⟨hf0, hf64, -⟩ := hfwd
      rcases List.mem_cons.mp h with rfl | h
      · -- single push
        have ht : ((sq : Int) + pawnMoveDir b.side_to_move).toNat < 64 := by omega
        rw [decode_f ht, decode_t ht]
        refine ⟨rfl, ht, ?_⟩
        rcases hdir with hd | hd <;> rw [hd] at hf0 hf64 ⊢ <;> omega
      · -- double push
        have hmem : sq / 8 = (if b.side_to_move = 0 then (1 : Nat) else 6) ∧
            mv = mkMove sq ((sq : Int) + pawnMoveDir b.side_to_move +
              pawnMoveDir b.side_to_move).toNat := by
          by_cases h1 : sq / 8 = (if b.side_to_move = 0 then (1 : Nat) else 6)
          · refine ⟨h1, ?_⟩
            rw [if_pos h1] at h
            by_cases h2 : is_empty b ((sq : Int) + pawnMoveDir b.side_to_move +
                pawnMoveDir b.side_to_move) = true
            · rw [if_pos h2] at h
              exact List.mem_singleton.mp h
            · rw [if_neg h2] at h
              simp at h
          · rw [if_neg h1] at h
            simp at h
        obtain ⟨hrank, rfl⟩ := hmem
        have hcomb : (pawnMoveDir b.side_to_move = 8 ∧ sq / 8 = 1) ∨
            (pawnMoveDir b.side_to_move = -8 ∧ sq / 8 = 6) := by
          rcases hstm with hs | hs <;> simp [pawnMoveDir, hs] at hrank ⊢ <;> exact hrank
        have ht : ((sq : Int) + pawnMoveDir b.side_to_move +
            pawnMoveDir b.side_to_move).toNat < 64 := by
          rcases hcomb with ⟨hd, h16⟩ | ⟨hd, h16⟩ <;> rw [hd] <;> omega
        rw [decode_f ht, decode_t ht]
        refine ⟨rfl, ht, ?_⟩
        rcases hcomb with ⟨hd, h16⟩ | ⟨hd, h16⟩ <;> rw [hd] at hf0 hf64 ⊢ <;> omega
    · simp at h
  · -- captures
    rcases List.mem_flatMap.mp h with ⟨i, hi, hmv⟩
    have hoff : pawnAtkDir b.side_to_move i = 7 ∨ pawnAtkDir b.side_to_move i = 9 ∨
        pawnAtkDir b.side_to_move i = -7 ∨ pawnAtkDir b.side_to_move i = -9 := by
      rcases hstm with hs | hs <;> by_cases hio : i = 0 <;> simp [pawnAtkDir, hs, hio]
    split at hmv
    · rename_i hcap
      obtain ⟨hc0, hc64⟩ := hcap
      have ht : ((sq : Int) + pawnAtkDir b.side_to_move i).toNat < 64 := by omega
      have hgoal : mkMove sq ((sq : Int) + pawnAtkDir b.side_to_move i).toNat >>> 6 = sq ∧
          (mkMove sq ((sq : Int) + pawnAtkDir b.side_to_move i).toNat &&& 63) < 64 ∧
          mkMove sq ((sq : Int) + pawnAtkDir b.side_to_move i).toNat >>> 6 ≠
            mkMove sq ((sq : Int) + pawnAtkDir b.side_to_move i).toNat &&& 63 := by
        rw [decode_f ht, decode_t ht]
        refine ⟨rfl, ht, ?_⟩
        rcases hoff with hd | hd | hd | hd <;> rw [hd] at hc0 hc64 ⊢ <;> omega
      split at hmv
      · rcases List.mem_singleton.mp hmv with rfl
        exact hgoal
      · split at hmv
        · rcases List.mem_singleton.mp hmv with rfl
          exact hgoal
        · simp at hmv
    · simp at hmv

theorem generate_moves_shape {b : Board} {mv : Nat} (h : mv ∈ generate_moves b) :
    mv >>> 6 < 64 ∧ (mv &&& 63) < 64 ∧
    (typeUnion b).testBit (mv >>> 6) = true ∧ mv >>> 6 ≠ mv &&& 63 := by
  unfold generate_moves at h
  simp only [List.mem_append] at h
  rcases h with ((((h | h) | h) | h) | h) | h <;>
    rcases List.mem_flatMap.mp h with ⟨sq, hsq, hmv⟩ <;>
    rcases mem_bitsOf.mp hsq with ⟨hsq64, hbit⟩ <;>
    have hstm := stm_of_mask hbit <;>
    rw [Nat.testBit_and, Bool.and_eq_true] at hbit
  · obtain ⟨hf, h64, hne⟩ := pawnGen_shape hsq64 hstm hmv
    rw [hf]
    exact ⟨hsq64, h64, typeUnion_of_pieces (by decide) (by decide) hbit.1, hf ▸ hne⟩
  · obtain ⟨hf, h64, hne⟩ := pieceGen_shape hbit.2 hmv
    rw [hf]
    exact ⟨hsq64, h64, typeUnion_of_pieces (by decide) (by decide) hbit.1, hf ▸ hne⟩
  · obtain ⟨hf, h64, hne⟩ := pieceGen_shape hbit.2 hmv
    rw [hf]
    exact ⟨hsq64, h64, typeUnion_of_pieces (by decide) (by decide) hbit.1, hf ▸ hne⟩
  · obtain ⟨hf, h64, hne⟩ := pieceGen_shape hbit.2 hmv
    rw [hf]
    exact ⟨hsq64, h64, typeUnion_of_pieces (by decide) (by decide) hbit.1, hf ▸ hne⟩
  · obtain ⟨hf, h64, hne⟩ := pieceGen_shape hbit.2 hmv
    rw [hf]
    exact ⟨hsq64, h64, typeUnion_of_pieces (by decide) (by decide) hbit.1, hf ▸ hne⟩
  · obtain ⟨hf, h64, hne⟩ := pieceGen_shape hbit.2 hmv
    rw [hf]
    exact ⟨hsq64, h64, typeUnion_of_pieces (by decide) (by decide) hbit.1, hf ▸ hne⟩

/-! ## Termination of the quiescence recursion -/

/-- Splitting a `countP` along a pointwise-stronger predicate. -/
theorem countP_split (p q : Nat → Bool) (l : List Nat)
    (h : ∀ a ∈ l, p a = true → q a = true) :
    l.countP q = l.countP p + l.countP (fun a => q a && !p a) := by
  induction l with
  | nil => simp
  | cons x xs ih =>
    have hx := h x (List.mem_cons_self x xs)
    have ihx := ih (fun a ha => h a (List.mem_cons_of_mem _ ha))
    rw [List.countP_cons, List.countP_cons, List.countP_cons, ihx]
    cases hp : p x with
    | true =>
      rw [hx hp]
      simp [hp]
      omega
    | false =>
      cases hq : q x <;> simp [hp, hq] <;> omega

/-- A board whose occupied squares avoid an occupied square of `b` (here:
the vacated origin `f`) has strictly fewer occupied squares than `b`. -/
theorem occB_lt_of_subFT {b x : Board} {f t : Nat} (hsub : subFT b f t x)
    (hf64 : f < 64) (hfb : (unionAll b).testBit f = true)
    (htb : (unionAll b).testBit t = true) (hft : f ≠ t) :
    occB x < occB b := by
  have hpq : ∀ j ∈ List.range 64,
      (unionAll x).testBit j = true → (unionAll b).testBit j = true := by
    intro j _ hx
    rcases hsub j hx with ⟨hb, -⟩ | rfl
    · exact hb
    · exact htb
  have hpf : (unionAll x).testBit f = false := by
    cases hc : (unionAll x).testBit f
    · rfl
    · rcases hsub f hc with ⟨-, hne⟩ | h2
      · exact absurd rfl hne
      · exact absurd h2 hft
  have hsplit : (List.range 64).countP (fun j => (unionAll b).testBit j) =
      (List.range 64).countP (fun j => (unionAll x).testBit j) +
      (List.range 64).countP (fun j => (unionAll b).testBit j && !(unionAll x).testBit j) :=
    countP_split (fun j => (unionAll x).testBit j)
      (fun j => (unionAll b).testBit j) (List.range 64) hpq
  have hpos : 0 < (List.range 64).countP
      (fun j => (unionAll b).testBit j && !(unionAll x).testBit j) := by
    refine List.countP_pos_iff.mpr ⟨f, List.mem_range.mpr hf64, ?_⟩
    simp [hfb, hpf]
  have e1 : occB x = (List.range 64).countP (fun j => (unionAll x).testBit j) := by
    simp [occB, bitsOf, List.countP_eq_length_filter]
  have e2 : occB b = (List.range 64).countP (fun j => (unionAll b).testBit j) := by
    simp [occB, bitsOf, List.countP_eq_length_filter]
  rw [e1, e2]
  omega

/-- Every capture `quiescence_search` recurses into strictly decreases the
occupied-square count: the origin square is vacated and `make_move` never
fills a square that was empty (except the destination, which was occupied,
being a capture target). -/
theorem occB_make_move_lt {b : Board} {mv : Nat} (h : mv ∈ qCaptures b) :
    occB (make_move b mv) < occB b := by
  unfold qCaptures at h
  rw [List.mem_filter] at h
  obtain ⟨hgen, hcond⟩ := h
  rw [Bool.and_eq_true, decide_eq_true_eq] at hcond
  obtain ⟨hf64, ht64, htu, hft⟩ := generate_moves_shape hgen
  obtain ⟨-, -, pt, hpt1, hpt6, hbit⟩ := piece_at_pos hcond.2
  have htb : (unionAll b).testBit (mv &&& 63) = true :=
    unionAll_of_typeUnion (typeUnion_of_pieces hpt1 hpt6 (by simpa using hbit))
  have hfb : (unionAll b).testBit (mv >>> 6) = true := unionAll_of_typeUnion htu
  exact occB_lt_of_subFT (make_move_subFT b mv hf64) hf64 hfb htb hft

theorem mem_insertDesc {score : Nat → Int} {mv x : Nat} {l : List Nat}
    (h : x ∈ insertDesc score mv l) : x = mv ∨ x ∈ l := by
  induction l with
  | nil =>
    unfold insertDesc at h
    exact Or.inl (List.mem_singleton.mp h)
  | cons y ys ih =>
    unfold insertDesc at h
    split at h
    · rcases List.mem_cons.mp h with rfl | h
      · exact Or.inl rfl
      · exact Or.inr h
    · rcases List.mem_cons.mp h with rfl | h
      · exact Or.inr (List.mem_cons_self _ _)
      · rcases ih h with h | h
        · exact Or.inl h
        · exact Or.inr (List.mem_cons_of_mem _ h)

theorem mem_sortDesc {score : Nat → Int} {l : List Nat} {x : Nat}
    (h : x ∈ sortDesc score l) : x ∈ l := by
  induction l with
  | nil => simp [sortDesc] at h
  | cons y ys ih =>
    unfold sortDesc at h
    rw [List.foldr_cons] at h
    rcases mem_insertDesc h with rfl | h
    · exact List.mem_cons_self _ _
    · exact List.mem_cons_of_mem _ (ih h)

/-- The capture loop depends on the recursive call only through its values
at the successor positions of the listed moves. -/
theorem qLoop_congr (ctx : Ctx) (r1 r2 : Board → Int → Int → Int → GState → Int × GState)
    (b : Board) (beta : Int) (color : Int) (l : List Nat)
    (hr : ∀ mv ∈ l, ∀ x y z g, r1 (make_move b mv) x y z g = r2 (make_move b mv) x y z g) :
    ∀ alpha g, qLoop ctx r1 b beta color l alpha g = qLoop ctx r2 b beta color l alpha g := by
  induction l with
  | nil => intro alpha g; rfl
  | cons mv rest ih =>
    intro alpha g
    have hmv := hr mv (List.mem_cons_self mv rest)
    have ihr := ih (fun m hm => hr m (List.mem_cons_of_mem _ hm))
    simp only [qLoop]
    rw [hmv]
    simp only [ihr]

/-- Fuel irrelevance for the embedded quiescence search: any two fuels
above the occupied-square count give the same result.  This is the
termination argument for the unbounded C++ recursion: the recursion depth
is bounded by the number of occupied squares. -/
theorem quiesceF_fuel_eq (ctx : Ctx) (N : Nat) :
    ∀ b, occB b ≤ N → ∀ f1 f2, occB b < f1 → occB b < f2 →
      ∀ alpha beta color g,
        quiesceF ctx f1 b alpha beta color g = quiesceF ctx f2 b alpha beta color g := by
  induction N with
  | zero =>
    intro b hb f1 f2 h1 h2 alpha beta color g
    obtain ⟨m1, rfl⟩ : ∃ m, f1 = m + 1 := ⟨f1 - 1, by omega⟩
    obtain ⟨m2, rfl⟩ : ∃ m, f2 = m + 1 := ⟨f2 - 1, by omega⟩
    simp only [quiesceF]
    split
    · rfl
    · refine qLoop_congr ctx _ _ b beta color _ ?_ _ _
      intro mmv hm x y z g0
      have hlt := occB_make_move_lt (mem_sortDesc hm)
      exact absurd (Nat.lt_of_lt_of_le hlt hb) (Nat.not_lt_zero _)
  | succ N ih =>
    intro b hb f1 f2 h1 h2 alpha beta color g
    obtain ⟨m1, rfl⟩ : ∃ m, f1 = m + 1 := ⟨f1 - 1, by omega⟩
    obtain ⟨m2, rfl⟩ : ∃ m, f2 = m + 1 := ⟨f2 - 1, by omega⟩
    simp only [quiesceF]
    split
    · rfl
    · refine qLoop_congr ctx _ _ b beta color _ ?_ _ _
      intro mmv hm x y z g0
      have hlt := occB_make_move_lt (mem_sortDesc hm)
      exact ih (make_move b mmv) (by omega) m1 m2 (by omega) (by omega) x y z g0

/-- Claim C10 amended: the quiescence recursion terminates, but the
decreasing measure is the number of occupied squares, not the total number
of set piece-type bits (which `make_move` can keep constant on a capture,
see the counterexample).  Formally: the fuelled embedding is independent
of the fuel once the fuel exceeds the occupied-square count, so the C++
recursion's depth is bounded by that count. -/
theorem C10_amended_quiescence_terminates (ctx : Ctx) (b : Board) (alpha beta : Int)
    (color : Int) (g : GState) (fuel : Nat) (h : occB b < fuel) :
    quiesceF ctx fuel b alpha beta color g = quiescence_search ctx b alpha beta color g := by
  unfold quiescence_search
  exact quiesceF_fuel_eq ctx (occB b) b le_rfl fuel (occB b + 1) h
    (Nat.lt_succ_self _) alpha beta color g

theorem C10_amended_witness :
    occB bC10 < 66 ∧
    quiesceF (ctxOf draws99) 66 bC10 (-100000) 100000 1 initG =
      quiescence_search (ctxOf draws99) bC10 (-100000) 100000 1 initG :=
  ⟨by decide, C10_amended_quiescence_terminates (ctxOf draws99) bC10 (-100000) 100000 1
    initG 66 (by decide)⟩

end HumanChess
